import Mathlib

/-!
Verification development for the ATI ICP-OES PDF parsing pipeline
(`backend/app/services/ati_parser.py` and the per-record validation loop of
`backend/app/api/v1/icp_tests.py`).

The pipeline is shallowly embedded over `List Char` text.  The external
PDF-to-text step (`extract_text_from_pdf`) is out of scope; the embedding
takes the already-extracted text plus the source filename, matching the
boundary the specification draws.  Python regular-expression searches are
embedded as explicit leftmost scans with the same backtracking behaviour as
the concrete patterns used by the source; Python `str.upper` is embedded as
ASCII uppercasing; Python `float` values are embedded as exact rationals.
-/

namespace AquaScope

/-- Decidable equality for `Except`, needed to evaluate the embedded
fallible operations on concrete inputs. -/
instance {ε α : Type} [DecidableEq ε] [DecidableEq α] : DecidableEq (Except ε α)
  | .ok a, .ok b =>
    if h : a = b then isTrue (by rw [h]) else isFalse (by intro he; cases he; exact h rfl)
  | .ok _, .error _ => isFalse (by intro h; cases h)
  | .error _, .ok _ => isFalse (by intro h; cases h)
  | .error e, .error f =>
    if h : e = f then isTrue (by rw [h]) else isFalse (by intro he; cases he; exact h rfl)

/-- ASCII uppercase of a character list (embedding of Python `str.upper`
for the ASCII text this parser handles). -/
def up (l : List Char) : List Char := l.map Char.toUpper

/-- Python `\s` (ASCII): space, tab, newline, carriage return, form feed,
vertical tab. -/
def isWS (c : Char) : Bool :=
  c = ' ' || c = '\t' || c = '\n' || c = '\r' || c = '\x0c' || c = '\x0b'

/-- Character class `[:\s]` used by the `label[:\s]+...` patterns. -/
def isSepCS (c : Char) : Bool := c = ':' || isWS c

/-- Digit-string to number, `int` on a run of ASCII digits. -/
def natOfDigits (l : List Char) : Nat :=
  l.foldl (fun a c => 10 * a + (c.toNat - 48)) 0

/-- Case-insensitive prefix test: does `pat` start `s` when both are
uppercased? -/
def upPrefix : List Char → List Char → Bool
  | [], _ => true
  | _ :: _, [] => false
  | a :: as, b :: bs => (a.toUpper = b.toUpper) && upPrefix as bs

/-- Leftmost-match scan: run `f` on every suffix of the text (with its start
index), returning the first hit.  This is the embedding of `re.search`'s
position loop; `f` plays the role of matching the pattern anchored at one
position. -/
def scanSuffixes {α : Type} (f : List Char → Nat → Option α) :
    List Char → Nat → Option α
  | [], i => f [] i
  | c :: rest, i =>
    match f (c :: rest) i with
    | some a => some a
    | none => scanSuffixes f rest (i + 1)

/-- Case-insensitive substring test (`pat.upper() in s.upper()`). -/
def containsCI (pat : String) (s : List Char) : Bool :=
  (scanSuffixes (fun t _ => if upPrefix pat.toList t then some 0 else none) s 0).isSome

/-- Case-sensitive substring test, used on already-uppercased lines
(Python `pat in line_upper`). -/
def containsSub (pat : List Char) (s : List Char) : Bool :=
  (scanSuffixes (fun t _ => if pat.isPrefixOf t then some 0 else none) s 0).isSome

/-- Python `str.strip`: drop whitespace from both ends. -/
def pyStrip (l : List Char) : List Char :=
  ((l.dropWhile isWS).reverse.dropWhile isWS).reverse

/-- Calendar date, as constructed by Python `datetime.date`. -/
structure Date where
  year : Nat
  month : Nat
  day : Nat
deriving DecidableEq, Repr

/-- Gregorian leap-year rule used by `datetime.date`. -/
def isLeap (y : Nat) : Bool := (y % 4 = 0 && ¬ y % 100 = 0) || y % 400 = 0

/-- Number of days in a month, as validated by `datetime.date`. -/
def daysInMonth (y m : Nat) : Nat :=
  if m = 2 then (if isLeap y then 29 else 28)
  else if m = 4 || m = 6 || m = 9 || m = 11 then 30
  else 31

/-- `datetime.date(y, m, d)`: `some` on a valid calendar date, `none` for the
`ValueError` case. -/
def mkDate (y m d : Nat) : Option Date :=
  if 1 ≤ y && y ≤ 9999 && 1 ≤ m && m ≤ 12 && 1 ≤ d && d ≤ daysInMonth y m then
    some ⟨y, m, d⟩
  else none

/-- Anchored match of `\d{4}-\d{2}-\d{2}` at the head of the list, returning
the three captured numbers. -/
def isoAt : List Char → Option (Nat × Nat × Nat)
  | a :: b :: c :: d :: '-' :: e :: f :: '-' :: g :: h :: _ =>
    if a.isDigit && b.isDigit && c.isDigit && d.isDigit && e.isDigit &&
        f.isDigit && g.isDigit && h.isDigit then
      some (natOfDigits [a, b, c, d], natOfDigits [e, f], natOfDigits [g, h])
    else none
  | _ => none

/-- `re.search(r'(\d{4})-(\d{2})-(\d{2})', s)`: numbers of the leftmost
match. -/
def searchISOnums (s : List Char) : Option (Nat × Nat × Nat) :=
  scanSuffixes (fun t _ => isoAt t) s 0

/-- `re.search(r'(\d{4}-\d{2}-\d{2})', s)`: text of the leftmost match
(used on the filename fallback, where the matched substring is re-parsed). -/
def searchISOsub (s : List Char) : Option (List Char) :=
  scanSuffixes (fun t _ => if (isoAt t).isSome then some (t.take 10) else none)
    s 0

/-- Exactly `len` digits at the head of `s`, as a number. -/
def numAt (s : List Char) (len : Nat) : Option Nat :=
  let ds := s.take len
  if ds.length = len && ds.all Char.isDigit then some (natOfDigits ds) else none

/-- Anchored match of `\d{l1}sep\d{l2}sep\d{4}` at the head of `s` for one
choice of the `{1,2}` quantifier lengths. -/
def sepTripleAt (sep : Char) (s : List Char) (l1 l2 : Nat) :
    Option (Nat × Nat × Nat) :=
  match numAt s l1 with
  | some n1 =>
    if (s.drop l1).head? = some sep then
      match numAt (s.drop (l1 + 1)) l2 with
      | some n2 =>
        if (s.drop (l1 + 1 + l2)).head? = some sep then
          match numAt (s.drop (l1 + 1 + l2 + 1)) 4 with
          | some n3 => some (n1, n2, n3)
          | none => none
        else none
      | none => none
    else none
  | none => none

/-- Anchored match of `(\d{1,2})sep(\d{1,2})sep(\d{4})` with the greedy
backtracking order of the `{1,2}` quantifiers (2 before 1). -/
def sepTripleGreedy (sep : Char) (s : List Char) : Option (Nat × Nat × Nat) :=
  (sepTripleAt sep s 2 2).orElse fun _ =>
    (sepTripleAt sep s 2 1).orElse fun _ =>
      (sepTripleAt sep s 1 2).orElse fun _ => sepTripleAt sep s 1 1

/-- `re.search(r'(\d{1,2})/(\d{1,2})/(\d{4})', s)` (month, day, year). -/
def searchSlash (s : List Char) : Option (Nat × Nat × Nat) :=
  scanSuffixes (fun t _ => sepTripleGreedy '/' t) s 0

/-- `re.search(r'(\d{1,2})\.(\d{1,2})\.(\d{4})', s)` (day, month, year). -/
def searchDot (s : List Char) : Option (Nat × Nat × Nat) :=
  scanSuffixes (fun t _ => sepTripleGreedy '.' t) s 0

/-- `parse_date` on a character list.  `.error ()` is the uncaught Python
`ValueError`: the first (ISO) pattern constructs the date with no
`try/except`, while the slash and dot patterns catch the error and fall
through. -/
def parse_dateL (l : List Char) : Except Unit (Option Date) :=
  if l.isEmpty || pyStrip l = ['-'] then .ok none
  else
    match searchISOnums l with
    | some (y, m, d) =>
      match mkDate y m d with
      | some dt => .ok (some dt)
      | none => .error ()
    | none =>
      match (searchSlash l).bind (fun p => mkDate p.2.2 p.1 p.2.1) with
      | some dt => .ok (some dt)
      | none => .ok ((searchDot l).bind fun p => mkDate p.2.2 p.2.1 p.1)

/-- `parse_date` on a string input. -/
def parse_date (s : String) : Except Unit (Option Date) := parse_dateL s.toList

/-- Field values of a parsed record.  Python stores strings, floats
(embedded as exact rationals), `date` objects, ints, the recommendation
list (each entry a one-key `{'text': line}` dict, embedded as the line),
and — on one unreachable path — `None`. -/
inductive Val where
  | s : String → Val
  | q : ℚ → Val
  | d : Date → Val
  | n : Nat → Val
  | recs : List String → Val
  | none : Val
deriving DecidableEq

/-- A record under construction: the Python dict, embedded as a partial map
from field name to value. -/
def Data : Type := String → Option Val

/-- `data[k] = v`. -/
def dset (dt : Data) (k : String) (v : Val) : Data :=
  fun k' => if k' = k then some v else dt k'

/-- `k in data`. -/
def dmem (dt : Data) (k : String) : Bool := (dt k).isSome

/-- The empty dict. -/
def emptyData : Data := fun _ => Option.none

/-- Rational value of a matched numeric token: integer digits, fractional
digits, optional signed decimal exponent (exact-arithmetic embedding of
Python `float`). -/
def tokVal (ip fp : List Char) (ex : Option Int) : ℚ :=
  let base : ℚ := (natOfDigits ip : ℚ) + (natOfDigits fp : ℚ) / (10 : ℚ) ^ fp.length
  match ex with
  | some e => base * (10 : ℚ) ^ e
  | none => base

/-- Anchored match of the optional exponent part `(?:e[+-]?\d+)?`:
`some` exponent when the whole group matches, else `none` (group skipped). -/
def expAt : List Char → Option Int
  | [] => Option.none
  | c :: rest =>
    if c = 'e' || c = 'E' then
      match rest with
      | '+' :: ds => if (ds.takeWhile Char.isDigit).length ≥ 1 then
          some (natOfDigits (ds.takeWhile Char.isDigit) : Int) else Option.none
      | '-' :: ds => if (ds.takeWhile Char.isDigit).length ≥ 1 then
          some (-(natOfDigits (ds.takeWhile Char.isDigit) : Int)) else Option.none
      | ds => if (ds.takeWhile Char.isDigit).length ≥ 1 then
          some (natOfDigits (ds.takeWhile Char.isDigit) : Int) else Option.none
    else Option.none

/-- Greedy anchored match of `\d+\.?\d*(?:e[+-]?\d+)?` on a list whose head
is a digit. -/
def parseTok (l : List Char) : ℚ :=
  let ip := l.takeWhile Char.isDigit
  let r1 := l.drop ip.length
  if r1.head? = some '.' then
    let r2 := r1.tail
    let fp := r2.takeWhile Char.isDigit
    tokVal ip fp (expAt (r2.drop fp.length))
  else tokVal ip [] (expAt r1)

/-- `re.search(r'(\d+\.?\d*(?:e[+-]?\d+)?)', line)` followed by `float`:
the leftmost match starts at the first digit of the line. -/
def extractNum : List Char → Option ℚ
  | [] => Option.none
  | c :: rest => if c.isDigit then some (parseTok (c :: rest)) else extractNum rest

/-- The ordered status vocabulary, multi-word phrases before the single-word
`NORMAL`. -/
def status_patterns : List String :=
  ["CRITICALLY LOW", "CRITICALLY HIGH", "ABOVE NORMAL", "BELOW NORMAL",
   "SLIGHTLY LOW", "SLIGHTLY HIGH", "NORMAL"]

/-- Spaces to underscores, forming the status code. -/
def underscore (p : String) : String :=
  String.mk (p.toList.map fun c => if c = ' ' then '_' else c)

/-- Status extraction: first phrase of the priority list contained in the
uppercased line, spaces converted to underscores. -/
def extractStatus (line : List Char) : Option String :=
  (status_patterns.find? fun p => containsSub p.toList (up line)).map underscore

/-- `extract_value_and_status`: first number on the line (if any) and the
status phrase (if any). -/
def extract_value_and_status (line : List Char) : Option ℚ × Option String :=
  (extractNum line, extractStatus line)

/-- Anchored match of `[:\s]+(\d+)`: at least one separator, then the digit
run.  A shorter separator run is only viable when a digit follows it, so the
scan tries each separator prefix in turn. -/
def sepsThenDigits : List Char → Option (List Char)
  | [] => Option.none
  | c :: rest =>
    if isSepCS c then
      match rest with
      | d :: _ => if d.isDigit then some (rest.takeWhile Char.isDigit)
          else sepsThenDigits rest
      | [] => Option.none
    else Option.none

/-- Anchored match of `[:\s]+([^\n]+)` trying `j` consumed separators, then
`j - 1`, … (the greedy quantifier's backtracking order). -/
def sepsThenLineFrom (l : List Char) : Nat → Option (List Char)
  | 0 => Option.none
  | j + 1 =>
    match l.drop (j + 1) with
    | c :: rest => if c = '\n' then sepsThenLineFrom l j
        else some (c :: rest.takeWhile fun x => ¬ x = '\n')
    | [] => sepsThenLineFrom l j

/-- Anchored match of `[:\s]+([^\n]+)`: greedy separator run, then the rest
of the line as the captured group. -/
def sepsThenLine (l : List Char) : Option (List Char) :=
  sepsThenLineFrom l (l.takeWhile isSepCS).length

/-- `re.search(rf'{label}[:\s]+([^\n]+)', text, re.IGNORECASE)`: captured
group of the leftmost match of a date-label pattern. -/
def searchLabelLine (lbl : String) (text : List Char) : Option (List Char) :=
  scanSuffixes
    (fun s _ => if upPrefix lbl.toList s then sepsThenLine (s.drop lbl.length)
      else Option.none) text 0

/-- `re.search(r'(?:Test ID|Barcode)[:\s]+(\d+)', text, re.IGNORECASE)`:
captured digits of the leftmost match, trying the `Test ID` alternative
before `Barcode` at each position. -/
def searchTestId (text : List Char) : Option (List Char) :=
  scanSuffixes
    (fun s _ =>
      (if upPrefix "Test ID".toList s then sepsThenDigits (s.drop 7)
       else Option.none).orElse fun _ =>
        if upPrefix "Barcode".toList s then sepsThenDigits (s.drop 7)
        else Option.none) text 0

/-- `extract_score`: leftmost match of `rf'{score_name}[:\s]+(\d+)'`
(case-insensitive), as an integer. -/
def extract_score (text : List Char) (score_name : String) : Option Nat :=
  (scanSuffixes
    (fun s _ => if upPrefix score_name.toList s then
        sepsThenDigits (s.drop score_name.length)
      else Option.none) text 0).map natOfDigits

/-- An entry of the element pattern table: the regex `^sym\s+tail` (with
`tail` empty for all symbols except the salinity row `^Sal\.\s+total`),
and the record fields it populates. -/
structure ElemSpec where
  sym : String
  tail : String
  valueField : String
  statusField : String
deriving DecidableEq

/-- The element pattern table of `parse_ati_pdf`, in source order. -/
def elements : List ElemSpec := [
  ⟨"Sal.", "total", "salinity", "salinity_status"⟩,
  ⟨"KH", "", "kh", "kh_status"⟩,
  ⟨"Cl", "", "cl", "cl_status"⟩,
  ⟨"Na", "", "na", "na_status"⟩,
  ⟨"Mg", "", "mg", "mg_status"⟩,
  ⟨"S", "", "s", "s_status"⟩,
  ⟨"Ca", "", "ca", "ca_status"⟩,
  ⟨"K", "", "k", "k_status"⟩,
  ⟨"Br", "", "br", "br_status"⟩,
  ⟨"Sr", "", "sr", "sr_status"⟩,
  ⟨"B", "", "b", "b_status"⟩,
  ⟨"F", "", "f", "f_status"⟩,
  ⟨"Li", "", "li", "li_status"⟩,
  ⟨"Si", "", "si", "si_status"⟩,
  ⟨"I", "", "i", "i_status"⟩,
  ⟨"Ba", "", "ba", "ba_status"⟩,
  ⟨"Mo", "", "mo", "mo_status"⟩,
  ⟨"Ni", "", "ni", "ni_status"⟩,
  ⟨"Mn", "", "mn", "mn_status"⟩,
  ⟨"As", "", "as", "as_status"⟩,
  ⟨"Be", "", "be", "be_status"⟩,
  ⟨"Cr", "", "cr", "cr_status"⟩,
  ⟨"Co", "", "co", "co_status"⟩,
  ⟨"Fe", "", "fe", "fe_status"⟩,
  ⟨"Cu", "", "cu", "cu_status"⟩,
  ⟨"Se", "", "se", "se_status"⟩,
  ⟨"Ag", "", "ag", "ag_status"⟩,
  ⟨"V", "", "v", "v_status"⟩,
  ⟨"Zn", "", "zn", "zn_status"⟩,
  ⟨"Sn", "", "sn", "sn_status"⟩,
  ⟨"NO3", "", "no3", "no3_status"⟩,
  ⟨"P", "", "p", "p_status"⟩,
  ⟨"PO4", "", "po4", "po4_status"⟩,
  ⟨"Al", "", "al", "al_status"⟩,
  ⟨"Sb", "", "sb", "sb_status"⟩,
  ⟨"Bi", "", "bi", "bi_status"⟩,
  ⟨"Pb", "", "pb", "pb_status"⟩,
  ⟨"Cd", "", "cd", "cd_status"⟩,
  ⟨"La", "", "la", "la_status"⟩,
  ⟨"Tl", "", "tl", "tl_status"⟩,
  ⟨"Ti", "", "ti", "ti_status"⟩,
  ⟨"W", "", "w", "w_status"⟩,
  ⟨"Hg", "", "hg", "hg_status"⟩]

/-- Anchored match of `\s+tail`: at least one whitespace character, then
the literal `tail` (empty for the plain element rows). -/
def existsWsThen (tail : List Char) : List Char → Bool
  | [] => false
  | c :: rest => isWS c && (tail.isPrefixOf rest || existsWsThen tail rest)

/-- Does `^sym\s+tail` match at position `i` of the text (ignoring the
line-start anchor)? -/
def elemMatchB (e : ElemSpec) (text : List Char) (i : Nat) : Bool :=
  e.sym.toList.isPrefixOf (text.drop i) &&
    existsWsThen e.tail.toList ((text.drop i).drop e.sym.length)

/-- Is position `i` a line start (`re.MULTILINE`'s `^`): the start of the
text or just after a newline? -/
def isLineStartB (text : List Char) (i : Nat) : Bool :=
  i = 0 ||
    match text.drop (i - 1) with
    | '\n' :: _ => true
    | _ => false

/-- Leftmost match position of `^sym\s+tail` under `re.MULTILINE`. -/
def findElemMatch (e : ElemSpec) (text : List Char) : Option Nat :=
  (List.range (text.length + 1)).find? fun i =>
    isLineStartB text i && elemMatchB e text i

/-- The full line at match position `i`: from `i` to the next newline or end
of text. -/
def lineAt (text : List Char) (i : Nat) : List Char :=
  (text.drop i).takeWhile fun c => ¬ c = '\n'

/-- Processing of one element table row: find the first matching line; on a
`---` (not detected) line record only the status, otherwise record the
extracted value and status when present. -/
def procElement (e : ElemSpec) (sect : List Char) (dt : Data) : Data :=
  match findElemMatch e sect with
  | Option.none => dt
  | some i =>
    let line := lineAt sect i
    if containsSub "---".toList line then
      match (extract_value_and_status line).2 with
      | some st => dset dt e.statusField (.s st)
      | Option.none => dt
    else
      let p := extract_value_and_status line
      let d1 := match p.1 with
        | some v => dset dt e.valueField (.q v)
        | Option.none => dt
      match p.2 with
      | some st => dset d1 e.statusField (.s st)
      | Option.none => d1

/-- The element extraction loop over the whole table. -/
def runElements (sect : List Char) (dt : Data) : Data :=
  elements.foldl (fun a e => procElement e sect a) dt

/-- The position where Python's `$` anchor matches (no `re.MULTILINE` on the
section patterns): the end of the text, or just before a terminating
newline. -/
def dollarEnd (text : List Char) : Nat :=
  if text.getLast? = some '\n' then text.length - 1 else text.length

/-- Leftmost case-insensitive occurrence of `pat` at an index `≥ start`. -/
def findCIFromIdx (pat : String) (text : List Char) (start : Nat) : Option Nat :=
  scanSuffixes
    (fun s i => if upPrefix pat.toList s then some i else Option.none)
    (text.drop start) start

/-- `group(0)` of `Intro(.*?)(?=Results of |$)` matched at position `i` with
an introducer of length `introLen`: the lazy group stops at the next
`Results of ` (which, when present, precedes every `$` position) or at
`$`. -/
def sectionSpan (text : List Char) (i introLen : Nat) : List Char :=
  let stop := (findCIFromIdx "Results of " text (i + introLen)).getD (dollarEnd text)
  (text.drop i).take (stop - i)

/-- `re.search(r'Results of Salt water(.*?)(?=Results of |$)', text,
re.DOTALL | re.IGNORECASE)`: `group(0)` of the leftmost match. -/
def searchSaltSection (text : List Char) : Option (List Char) :=
  scanSuffixes
    (fun s i => if upPrefix "Results of Salt water".toList s then
        some (sectionSpan text i 21)
      else Option.none) text 0

/-- `re.search(r'Results of (?:Osmosis|RO) water(.*?)(?=Results of |$)', ...)`:
`group(0)` of the leftmost match, `Osmosis` tried before `RO`. -/
def searchROSection (text : List Char) : Option (List Char) :=
  scanSuffixes
    (fun s i =>
      if upPrefix "Results of Osmosis water".toList s then
        some (sectionSpan text i 24)
      else if upPrefix "Results of RO water".toList s then
        some (sectionSpan text i 19)
      else Option.none) text 0

/-- The water-section segmentation: detected salt/RO sections in that order,
falling back to one implicit saltwater section covering the whole text. -/
def water_sections (text : List Char) : List (String × List Char) :=
  let ws :=
    (match searchSaltSection text with
     | some s => [("saltwater", s)]
     | Option.none => []) ++
    (match searchROSection text with
     | some s => [("ro_water", s)]
     | Option.none => [])
  if ws.isEmpty then [("saltwater", text)] else ws

/-- Failures of `parse_ati_pdf` itself: an uncaught Python `ValueError`
from `datetime.date`, or the `ATIParserError` raised when no test date was
recovered. -/
inductive PErr where
  | valueError
  | missingTestDate
deriving DecidableEq

/-- One step of the metadata loop: find the label's line, parse its date,
and store the field when a date was parsed (overwriting any earlier value);
an uncaught `ValueError` from the ISO pattern propagates. -/
def applyPattern (lbl fld : String) (text : List Char) (dt : Data) :
    Except PErr Data :=
  match searchLabelLine lbl text with
  | Option.none => .ok dt
  | some g =>
    match parse_dateL g with
    | .error _ => .error .valueError
    | .ok Option.none => .ok dt
    | .ok (some d) => .ok (dset dt fld (.d d))

/-- Test-ID extraction into the shared metadata. -/
def addTestId (text : List Char) (dt : Data) : Data :=
  match searchTestId text with
  | some ds => dset dt "test_id" (.s (String.mk ds))
  | Option.none => dt

/-- The shared-metadata scan over the whole document: test ID, then the six
date-label patterns in source order. -/
def bodyMeta (text : List Char) : Except PErr Data :=
  (applyPattern "Test Date" "test_date" text
      (addTestId text emptyData)).bind fun d1 =>
    (applyPattern "Created" "sample_date" text d1).bind fun d2 =>
      (applyPattern "Sample Date" "sample_date" text d2).bind fun d3 =>
        (applyPattern "Arrived in the laboratory" "received_date"
            text d3).bind fun d4 =>
          (applyPattern "Received" "received_date" text d4).bind fun d5 =>
            applyPattern "Evaluated" "evaluated_date" text d5

/-- The first test-date fallback: copy `evaluated_date` into `test_date`
when the latter is absent and the former present. -/
def addEvaluatedFallback (dt : Data) : Data :=
  if (!dmem dt "test_date") && dmem dt "evaluated_date" then
    match dt "evaluated_date" with
    | some v => dset dt "test_date" v
    | Option.none => dt
  else dt

/-- The second test-date fallback: recover a `YYYY-MM-DD` substring from
the filename; its re-parse raises on an impossible date and can in
principle store `None`. -/
def addFilenameFallback (filename : List Char) (dt : Data) :
    Except PErr Data :=
  if dmem dt "test_date" then .ok dt
  else
    match searchISOsub filename with
    | some sub =>
      match parse_dateL sub with
      | .ok (some d) => .ok (dset dt "test_date" (.d d))
      | .ok Option.none => .ok (dset dt "test_date" Val.none)
      | .error _ => .error .valueError
    | Option.none => .ok dt

/-- The two test-date fallbacks, in source order. -/
def addFallbacks (filename : List Char) (dt : Data) : Except PErr Data :=
  addFilenameFallback filename (addEvaluatedFallback dt)

/-- Shared metadata of one document: body scan plus test-date fallbacks. -/
def computeShared (text filename : List Char) : Except PErr Data :=
  (bodyMeta text).bind (addFallbacks filename)

/-- The lazy body of `(.+?)(?=\n\n|\Z)` after its first character: stop
before the first blank line, else run to the end of the text. -/
def takeUntilBlank : List Char → List Char
  | [] => []
  | c :: rest =>
    if c = '\n' && rest.head? == some '\n' then []
    else c :: takeUntilBlank rest

/-- `(.+?)(?=\n\n|\Z)` anchored here: needs at least one character. -/
def lazyBody : List Char → Option (List Char)
  | [] => Option.none
  | c :: rest => some (c :: takeUntilBlank rest)

/-- Leftmost match of `rf'{lbl}s?:(.+?)(?=\n\n|\Z)'` (case-insensitive,
DOTALL), the greedy `s?` tried long-first: captured group. -/
def searchNarrative (lbl : String) (text : List Char) : Option (List Char) :=
  scanSuffixes
    (fun s _ =>
      if upPrefix (lbl ++ "s:").toList s then lazyBody (s.drop (lbl.length + 2))
      else if upPrefix (lbl ++ ":").toList s then lazyBody (s.drop (lbl.length + 1))
      else Option.none) text 0

/-- Python `str.split('\n')`. -/
def splitLines : List Char → List (List Char)
  | [] => [[]]
  | '\n' :: rest => [] :: splitLines rest
  | c :: rest =>
    match splitLines rest with
    | h :: t => (c :: h) :: t
    | [] => [[c]]

/-- Recommendations block: stripped body split into lines, keeping stripped
non-empty lines that do not begin with a dash. -/
def addRecommendations (sect : List Char) (dt : Data) : Data :=
  match searchNarrative "Recommendation" sect with
  | Option.none => dt
  | some body =>
    let recsL := ((splitLines (pyStrip body)).map pyStrip).filter
      fun l => (!l.isEmpty) && !(l.head? == some '-')
    if recsL.isEmpty then dt
    else dset dt "recommendations" (.recs (recsL.map String.mk))

/-- Dosing-instructions block: the stripped body, kept whole. -/
def addDosing (sect : List Char) (dt : Data) : Data :=
  match searchNarrative "Dosing Instruction" sect with
  | Option.none => dt
  | some body => dset dt "dosing_instructions" (.s (String.mk (pyStrip body)))

/-- The five quality-score labels and their record fields, in source
order. -/
def score_mappings : List (String × String) :=
  [("Major Elements", "score_major_elements"),
   ("Minor Elements", "score_minor_elements"),
   ("Pollutants", "score_pollutants"),
   ("Base Elements", "score_base_elements"),
   ("Overall", "score_overall")]

/-- Assembly of one section's record: constant lab name, the section's water
type, the shared metadata (dict merge), then scores, element readings and
narrative blocks extracted from the section text. -/
def buildRecord (shared : Data) (wt : String) (sect : List Char) : Data :=
  let base : Data := fun k =>
    if k = "lab_name" then some (.s "ATI Aquaristik")
    else if k = "water_type" then some (.s wt)
    else Option.none
  let d0 : Data := fun k =>
    match shared k with
    | some v => some v
    | Option.none => base k
  let d1 := score_mappings.foldl
    (fun a p =>
      match extract_score sect p.1 with
      | some v => dset a p.2 (.n v)
      | Option.none => a) d0
  let d2 := runElements sect d1
  addDosing sect (addRecommendations sect d2)

/-- `parse_ati_pdf` on extracted text plus source filename: shared metadata
once, then one record per water section, failing the whole document when a
record lacks a test date. -/
def parse_ati_pdf (text filename : List Char) : Except PErr (List Data) :=
  (computeShared text filename).bind fun shared =>
    (water_sections text).foldlM
      (fun acc p =>
        let dt := buildRecord shared p.1 p.2
        if dmem dt "test_date" then .ok (acc ++ [dt])
        else .error PErr.missingTestDate)
      ([] : List Data)

/-- The two `ATIParserError` conditions of `validate_parsed_data`. -/
inductive VErr where
  | missingRequiredField
  | noExtractableData
deriving DecidableEq

/-- The designated anchor fields checked by `validate_parsed_data`. -/
def element_fields : List String :=
  ["ca", "mg", "kh", "salinity", "li", "si", "al", "no3", "po4",
   "ca_status", "mg_status", "kh_status", "salinity_status",
   "li_status", "si_status", "al_status", "no3_status", "po4_status"]

/-- `validate_parsed_data`: required fields first, then the anchor-data
check. -/
def validate_parsed_data (dt : Data) : Except VErr Unit :=
  let missing := (["lab_name", "test_date"]).filter fun f => !dmem dt f
  if !missing.isEmpty then .error .missingRequiredField
  else if element_fields.any (fun f => dmem dt f) then .ok ()
  else .error .noExtractableData

/-- Failure kinds of the upload endpoint's processing of one document. -/
inductive UErr where
  | parse : PErr → UErr
  | noTests : UErr
  | validation : VErr → UErr
deriving DecidableEq

/-- The record-processing slice of `upload_icp_test_pdf`: parse, reject an
empty result, then validate each record in order inside one `try` block —
the first validation failure aborts the whole upload with an HTTP error and
nothing is committed. -/
def uploadRecords (text filename : List Char) : Except UErr (List Data) :=
  match parse_ati_pdf text filename with
  | .error e => .error (.parse e)
  | .ok tests =>
    if tests.isEmpty then .error .noTests
    else
      tests.foldlM
        (fun acc dt =>
          match validate_parsed_data dt with
          | .ok _ => .ok (acc ++ [dt])
          | .error v => .error (UErr.validation v))
        ([] : List Data)

/-!  Helper lemmas shared by the claim theorems. -/

theorem dset_same (dt : Data) (k : String) (v : Val) : dset dt k v k = some v := by
  simp [dset]

theorem dset_ne (dt : Data) (k k' : String) (v : Val) (h : ¬ k' = k) :
    dset dt k v k' = dt k' := by
  simp [dset, h]

/-- A `procElement` step leaves every field other than its own two fields
unchanged. -/
theorem procElement_preserve (e : ElemSpec) (sect : List Char) (dt : Data)
    (k : String) (hv : ¬ k = e.valueField) (hs : ¬ k = e.statusField) :
    procElement e sect dt k = dt k := by
  unfold procElement
  cases findElemMatch e sect with
  | none => rfl
  | some i =>
    simp only
    split
    · cases (extract_value_and_status (lineAt sect i)).2 with
      | none => rfl
      | some st => exact dset_ne _ _ _ _ hs
    · cases hV : (extract_value_and_status (lineAt sect i)).1 with
      | none =>
        cases (extract_value_and_status (lineAt sect i)).2 with
        | none => simp [hV]
        | some st => simp [hV, dset_ne _ _ _ _ hs]
      | some v =>
        cases (extract_value_and_status (lineAt sect i)).2 with
        | none => simp [hV, dset_ne _ _ _ _ hv]
        | some st => simp [hV, dset_ne _ _ _ _ hs, dset_ne _ _ _ _ hv]

/-- A fold of `procElement` steps whose rows never mention field `k` leaves
`k` unchanged. -/
theorem foldl_proc_preserve (sect : List Char) (k : String) :
    ∀ (specs : List ElemSpec),
      (∀ x ∈ specs, ¬ x.valueField = k ∧ ¬ x.statusField = k) →
      ∀ dt : Data, (specs.foldl (fun a x => procElement x sect a) dt) k = dt k
  | [], _, dt => rfl
  | x :: rest, h, dt => by
    have hx := h x (by simp)
    have hrest := foldl_proc_preserve sect k rest
      (fun y hy => h y (by simp [hy]))
    simp only [List.foldl_cons]
    rw [hrest (procElement x sect dt)]
    exact procElement_preserve x sect dt k
      (fun he => hx.1 he.symm) (fun he => hx.2 he.symm)

/-- Two element table rows with entirely distinct record fields. -/
def fieldsDisjoint (a b : ElemSpec) : Prop :=
  ¬ a.valueField = b.valueField ∧ ¬ a.valueField = b.statusField ∧
    ¬ a.statusField = b.valueField ∧ ¬ a.statusField = b.statusField

instance : DecidableRel fieldsDisjoint := fun a b => by
  unfold fieldsDisjoint; infer_instance

/-- The 45-row element table populates pairwise distinct record fields. -/
theorem elements_pairwise : elements.Pairwise fieldsDisjoint := by decide

/-- No element table row uses the same field for value and status. -/
theorem elements_self_ne : ∀ x ∈ elements, ¬ x.valueField = x.statusField := by
  decide

/-- The result of a `procElement` step at the row's own value field depends
on the input dict only through that same field. -/
theorem procElement_val_congr (e : ElemSpec) (sect : List Char) (d d' : Data)
    (hself : ¬ e.valueField = e.statusField)
    (h : d e.valueField = d' e.valueField) :
    procElement e sect d e.valueField = procElement e sect d' e.valueField := by
  unfold procElement
  cases findElemMatch e sect with
  | none => exact h
  | some i =>
    simp only
    split
    · cases (extract_value_and_status (lineAt sect i)).2 with
      | none => exact h
      | some st =>
        dsimp only
        rw [dset_ne _ _ _ _ hself, dset_ne _ _ _ _ hself]; exact h
    · cases hV : (extract_value_and_status (lineAt sect i)).1 with
      | none =>
        cases (extract_value_and_status (lineAt sect i)).2 with
        | none => exact h
        | some st =>
          dsimp only
          rw [dset_ne _ _ _ _ hself, dset_ne _ _ _ _ hself]; exact h
      | some v =>
        cases (extract_value_and_status (lineAt sect i)).2 with
        | none => dsimp only; rw [dset_same, dset_same]
        | some st =>
          dsimp only
          rw [dset_ne _ _ _ _ hself, dset_ne _ _ _ _ hself,
            dset_same, dset_same]

/-- The result of a `procElement` step at the row's own status field depends
on the input dict only through that same field. -/
theorem procElement_status_congr (e : ElemSpec) (sect : List Char) (d d' : Data)
    (h : d e.statusField = d' e.statusField) :
    procElement e sect d e.statusField = procElement e sect d' e.statusField := by
  unfold procElement
  cases findElemMatch e sect with
  | none => exact h
  | some i =>
    simp only
    split
    · cases (extract_value_and_status (lineAt sect i)).2 with
      | none => exact h
      | some st => dsimp only; rw [dset_same, dset_same]
    · cases hV : (extract_value_and_status (lineAt sect i)).1 with
      | none =>
        cases (extract_value_and_status (lineAt sect i)).2 with
        | none => exact h
        | some st => dsimp only; rw [dset_same, dset_same]
      | some v =>
        cases (extract_value_and_status (lineAt sect i)).2 with
        | none =>
          dsimp only
          by_cases hvs : e.statusField = e.valueField
          · rw [hvs, dset_same, dset_same]
          · rw [dset_ne _ _ _ _ hvs, dset_ne _ _ _ _ hvs]; exact h
        | some st =>
          dsimp only
          rw [dset_same, dset_same]

/-- In the element extraction fold, a row's own two fields are exactly what
its own step would produce from the initial dict: every other row of the
(pairwise field-disjoint) table leaves them alone. -/
theorem foldl_proc_field (sect : List Char) (e : ElemSpec) :
    ∀ (specs : List ElemSpec), e ∈ specs → specs.Pairwise fieldsDisjoint →
      (∀ x ∈ specs, ¬ x.valueField = x.statusField) →
      ∀ dt : Data,
        (specs.foldl (fun a x => procElement x sect a) dt) e.valueField
            = procElement e sect dt e.valueField ∧
          (specs.foldl (fun a x => procElement x sect a) dt) e.statusField
            = procElement e sect dt e.statusField
  | [], hmem, _, _, _ => by cases hmem
  | a :: rest, hmem, hpw, hself, dt => by
    have hpw' := (List.pairwise_cons.mp hpw)
    rcases List.mem_cons.mp hmem with he | he
    · subst he
      constructor
      · simp only [List.foldl_cons]
        exact foldl_proc_preserve sect e.valueField rest
          (fun y hy => ⟨fun hh => (hpw'.1 y hy).1 hh.symm,
            fun hh => (hpw'.1 y hy).2.1 hh.symm⟩) _
      · simp only [List.foldl_cons]
        exact foldl_proc_preserve sect e.statusField rest
          (fun y hy => ⟨fun hh => (hpw'.1 y hy).2.2.1 hh.symm,
            fun hh => (hpw'.1 y hy).2.2.2 hh.symm⟩) _
    · have hd := hpw'.1 e he
      have ih := foldl_proc_field sect e rest he hpw'.2
        (fun x hx => hself x (by simp [hx])) (procElement a sect dt)
      have hselfe : ¬ e.valueField = e.statusField := hself e (by simp [he])
      constructor
      · simp only [List.foldl_cons]
        rw [ih.1]
        exact (procElement_val_congr e sect _ dt hselfe
          (procElement_preserve a sect dt e.valueField
            (fun hh => hd.1 hh.symm) (fun hh => hd.2.2.1 hh.symm)))
      · simp only [List.foldl_cons]
        rw [ih.2]
        exact (procElement_status_congr e sect _ dt
          (procElement_preserve a sect dt e.statusField
            (fun hh => hd.2.1 hh.symm) (fun hh => hd.2.2.2 hh.symm)))

/-- A whitespace character is not a digit, a dot, or an exponent marker. -/
theorem isWS_not_special (c : Char) (h : isWS c = true) :
    ¬ c.isDigit = true ∧ ¬ c = '.' ∧ ¬ c = 'e' ∧ ¬ c = 'E' := by
  simp only [isWS, Bool.or_eq_true, decide_eq_true_eq] at h
  rcases h with ((((h | h) | h) | h) | h) | h <;> subst h <;> refine ⟨by decide, by decide, by decide, by decide⟩

theorem extractNum_cons_nondigit (c : Char) (l : List Char)
    (h : ¬ c.isDigit = true) : extractNum (c :: l) = extractNum l := by
  simp [extractNum, h]

theorem extractNum_cons_digit (c : Char) (l : List Char)
    (h : c.isDigit = true) : extractNum (c :: l) = some (parseTok (c :: l)) := by
  simp [extractNum, h]

/-- `\s+` succeeding with an empty trailing literal means the remaining text
starts with a whitespace character. -/
theorem existsWsThen_nil (l : List Char) (h : existsWsThen [] l = true) :
    ∃ c t, l = c :: t ∧ isWS c = true := by
  cases l with
  | nil => simp [existsWsThen] at h
  | cons c t =>
    refine ⟨c, t, rfl, ?_⟩
    simp only [existsWsThen, Bool.and_eq_true] at h
    exact h.1

/-- The matched token of a line `s1 s2 d ⟨break⟩…` whose fourth character
(if any) is not a digit, dot, or exponent marker: just the digit `d`. -/
theorem extractNum_sym3 (s1 s2 d : Char) (rest : List Char)
    (h1 : ¬ s1.isDigit = true) (h2 : ¬ s2.isDigit = true)
    (hd : d.isDigit = true)
    (hrest : rest = [] ∨ ∃ c t, rest = c :: t ∧ ¬ c.isDigit = true ∧
      ¬ c = '.' ∧ ¬ c = 'e' ∧ ¬ c = 'E') :
    extractNum (s1 :: s2 :: d :: rest) = some ((d.toNat - 48 : ℕ) : ℚ) := by
  rw [extractNum_cons_nondigit _ _ h1, extractNum_cons_nondigit _ _ h2,
    extractNum_cons_digit _ _ hd]
  have hnat : natOfDigits [d] = d.toNat - 48 := by
    simp [natOfDigits]
  have hnil : natOfDigits ([] : List Char) = 0 := rfl
  rcases hrest with hrest | ⟨c, t, hrest, hcd, hcdot, hce, hcE⟩ <;> subst hrest
  · have hip : List.takeWhile Char.isDigit [d] = [d] := by
      simp [List.takeWhile, hd]
    simp only [parseTok, hip]
    norm_num [expAt, tokVal, hnat, hnil]
  · have hip : List.takeWhile Char.isDigit (d :: c :: t) = [d] := by
      simp [List.takeWhile, hd, hcd]
    simp only [parseTok, hip]
    have hr1 : (d :: c :: t).drop (List.length [d]) = c :: t := by simp
    rw [hr1]
    rw [if_neg (by simp [hcdot])]
    have hexp : expAt (c :: t) = Option.none := by
      simp [expAt, hce, hcE]
    norm_num [hexp, tokVal, hnat, hnil]

/-- `find?` over an initial segment of the naturals returns the least
satisfying index. -/
theorem find?_range_spec (p : Nat → Bool) :
    ∀ (n i : Nat), (List.range n).find? p = some i →
      p i = true ∧ ∀ j < i, p j = false
  | 0, i, h => by rw [List.range_zero] at h; cases h
  | n + 1, i, h => by
    rw [List.range_succ, List.find?_append] at h
    cases hn : (List.range n).find? p with
    | some k =>
      rw [hn] at h
      simp only [Option.or_some] at h
      cases h
      exact find?_range_spec p n i hn
    | none =>
      rw [hn] at h
      simp only [Option.or] at h
      have hall : ∀ x ∈ List.range n, ¬ p x = true := by
        intro x hx
        simpa using List.find?_eq_none.mp hn x hx
      have : p n = true ∧ n = i := by
        by_cases hp : p n = true
        · refine ⟨hp, ?_⟩
          simp [List.find?, hp] at h
          exact h
        · simp [List.find?, hp] at h
      rcases this with ⟨hp, rfl⟩
      refine ⟨hp, fun j hj => ?_⟩
      have := hall j (List.mem_range.mpr hj)
      simpa using this

/-- `findElemMatch` returns the leftmost position at which the row's
anchored pattern matches. -/
theorem findElemMatch_spec (e : ElemSpec) (text : List Char) (i : Nat)
    (h : findElemMatch e text = some i) :
    (isLineStartB text i && elemMatchB e text i) = true ∧
      ∀ j < i, (isLineStartB text j && elemMatchB e text j) = false := by
  have hmem := List.find?_some h
  have hspec := find?_range_spec _ _ _ h
  refine ⟨hspec.1, fun j hj => ?_⟩
  by_cases hjn : j < text.length + 1
  · exact hspec.2 j hj
  · have hi : i < text.length + 1 := by
      have := List.mem_of_find?_eq_some h
      exact List.mem_range.mp this
    omega

/-- On a matched line carrying the `---` marker, a `procElement` step leaves
the value field alone and records exactly the extracted status. -/
theorem procElement_dashes (e : ElemSpec) (sect : List Char) (d0 : Data)
    (i : Nat) (hself : ¬ e.valueField = e.statusField)
    (hfind : findElemMatch e sect = some i)
    (hdash : containsSub "---".toList (lineAt sect i) = true) :
    procElement e sect d0 e.valueField = d0 e.valueField ∧
      ∀ st, extractStatus (lineAt sect i) = some st →
        procElement e sect d0 e.statusField = some (.s st) := by
  constructor
  · unfold procElement
    rw [hfind]
    dsimp only
    rw [if_pos (by simpa using hdash)]
    cases h2 : (extract_value_and_status (lineAt sect i)).2 with
    | none => rfl
    | some st => exact dset_ne _ _ _ _ hself
  · intro st hst
    unfold procElement
    rw [hfind]
    dsimp only
    rw [if_pos (by simpa using hdash)]
    have h2 : (extract_value_and_status (lineAt sect i)).2 = some st := by
      simpa [extract_value_and_status] using hst
    rw [h2]
    exact dset_same _ _ _

/-- On a matched line without the `---` marker whose first number is `v`,
a `procElement` step records `v` in the value field. -/
theorem procElement_value (e : ElemSpec) (sect : List Char) (d0 : Data)
    (i : Nat) (v : ℚ) (hself : ¬ e.valueField = e.statusField)
    (hfind : findElemMatch e sect = some i)
    (hdash : containsSub "---".toList (lineAt sect i) = false)
    (hnum : extractNum (lineAt sect i) = some v) :
    procElement e sect d0 e.valueField = some (.q v) := by
  unfold procElement
  rw [hfind]
  dsimp only
  rw [if_neg (by simp only [hdash]; simp)]
  have hp1 : (extract_value_and_status (lineAt sect i)).1 = some v := by
    simpa [extract_value_and_status] using hnum
  rw [hp1]
  dsimp only
  cases (extract_value_and_status (lineAt sect i)).2 with
  | none => exact dset_same _ _ _
  | some st =>
    dsimp only
    rw [dset_ne _ _ _ _ hself]
    exact dset_same _ _ _

/-- The matched line of a three-character symbol row: the three symbol
characters followed either by a line break or by a whitespace character and
the rest of the line. -/
theorem elemMatch3_line (s1 s2 s3 : Char) (text : List Char) (i : Nat)
    (hn1 : ¬ s1 = '\n') (hn2 : ¬ s2 = '\n') (hn3 : ¬ s3 = '\n')
    (hpre : [s1, s2, s3].isPrefixOf (text.drop i) = true)
    (hws : existsWsThen [] ((text.drop i).drop 3) = true) :
    lineAt text i = [s1, s2, s3] ∨
      ∃ c t, lineAt text i = s1 :: s2 :: s3 :: c :: t ∧ isWS c = true ∧
        ¬ c = '\n' := by
  obtain ⟨t0, ht0⟩ := List.isPrefixOf_iff_prefix.mp hpre
  have hdrop : (text.drop i).drop 3 = t0 := by
    rw [← ht0]; rfl
  rw [hdrop] at hws
  obtain ⟨c, t1, ht1, hwc⟩ := existsWsThen_nil t0 hws
  subst ht1
  have hline : lineAt text i
      = List.takeWhile (fun x => decide (¬ x = '\n')) (s1 :: s2 :: s3 :: c :: t1) := by
    unfold lineAt
    rw [← ht0]
    rfl
  by_cases hc : c = '\n'
  · left
    subst hc
    rw [hline]
    simp [List.takeWhile_cons, hn1, hn2, hn3]
  · right
    refine ⟨c, List.takeWhile (fun x => decide (¬ x = '\n')) t1, ?_, hwc, hc⟩
    rw [hline]
    simp [List.takeWhile_cons, hn1, hn2, hn3, hc]

/-- Over the whole element table, a matched three-character symbol row whose
third character is a digit records that digit as the value whenever the line
has no `---` marker: the number regex scans the full line, symbol included. -/
theorem runElements_sym3 (e : ElemSpec) (s1 s2 s3 : Char)
    (he : e ∈ elements) (hself : ¬ e.valueField = e.statusField)
    (hsym : e.sym.toList = [s1, s2, s3]) (hlen : e.sym.length = 3)
    (htail : e.tail.toList = [])
    (hn1 : ¬ s1 = '\n') (hn2 : ¬ s2 = '\n') (hn3 : ¬ s3 = '\n')
    (h1 : ¬ s1.isDigit = true) (h2 : ¬ s2.isDigit = true)
    (h3 : s3.isDigit = true)
    (sect : List Char) (d0 : Data) (i : Nat)
    (hfind : findElemMatch e sect = some i)
    (hdash : containsSub "---".toList (lineAt sect i) = false) :
    runElements sect d0 e.valueField = some (.q ((s3.toNat - 48 : ℕ) : ℚ)) := by
  have hfold := foldl_proc_field sect e elements he elements_pairwise
    elements_self_ne d0
  have hspec := findElemMatch_spec e sect i hfind
  have hm : elemMatchB e sect i = true := by
    have h0 := hspec.1
    simp only [Bool.and_eq_true] at h0
    exact h0.2
  unfold elemMatchB at hm
  rw [hsym, hlen, htail] at hm
  simp only [Bool.and_eq_true] at hm
  have hm' := hm
  have hline := elemMatch3_line s1 s2 s3 sect i hn1 hn2 hn3 hm'.1 hm'.2
  have hnum : extractNum (lineAt sect i) = some ((s3.toNat - 48 : ℕ) : ℚ) := by
    rcases hline with hl | ⟨c, t, hl, hwc, hcn⟩
    · rw [hl]
      exact extractNum_sym3 s1 s2 s3 [] h1 h2 h3 (Or.inl rfl)
    · rw [hl]
      obtain ⟨hcd, hcdot, hce, hcE⟩ := isWS_not_special c hwc
      exact extractNum_sym3 s1 s2 s3 (c :: t) h1 h2 h3
        (Or.inr ⟨c, t, rfl, hcd, hcdot, hce, hcE⟩)
  unfold runElements
  rw [hfold.1]
  exact procElement_value e sect d0 i _ hself hfind hdash hnum

/-- C10: the numeric value is extracted from the whole matched line, leading
symbol token included, so every matched `NO3` line without the `---` marker
records `no3 = 3.0` (the digit inside the symbol itself) and every matched
`PO4` line records `po4 = 4.0`, regardless of the measurement printed after
the symbol. -/
theorem c10_value_from_symbol_digit :
    ∀ (sect : List Char) (d0 : Data) (i : Nat),
      (findElemMatch ⟨"NO3", "", "no3", "no3_status"⟩ sect = some i →
        containsSub "---".toList
          (lineAt sect i) = false →
        runElements sect d0 "no3" = some (.q 3)) ∧
      (findElemMatch ⟨"PO4", "", "po4", "po4_status"⟩ sect = some i →
        containsSub "---".toList (lineAt sect i) = false →
        runElements sect d0 "po4" = some (.q 4)) := by
  intro sect d0 i
  constructor
  · intro hfind hdash
    have h := runElements_sym3 ⟨"NO3", "", "no3", "no3_status"⟩ 'N' 'O' '3'
      (by decide) (by decide) rfl rfl rfl (by decide) (by decide) (by decide)
      (by decide) (by decide) (by decide) sect d0 i hfind hdash
    have h3 : ('3'.toNat - 48 : ℕ) = 3 := by decide
    rw [h3] at h
    have : ((3 : ℕ) : ℚ) = 3 := by norm_num
    rw [this] at h
    exact h
  · intro hfind hdash
    have h := runElements_sym3 ⟨"PO4", "", "po4", "po4_status"⟩ 'P' 'O' '4'
      (by decide) (by decide) rfl rfl rfl (by decide) (by decide) (by decide)
      (by decide) (by decide) (by decide) sect d0 i hfind hdash
    have h4 : ('4'.toNat - 48 : ℕ) = 4 := by decide
    rw [h4] at h
    have : ((4 : ℕ) : ℚ) = 4 := by norm_num
    rw [this] at h
    exact h

/-- Witness for C10 on a concrete section: the `NO3` line reports 12.5 but
3.0 is recorded. -/
theorem c10_value_from_symbol_digit_witness :
    findElemMatch ⟨"NO3", "", "no3", "no3_status"⟩
      ("NO3 12.5 mg/l NORMAL".toList) = some 0 ∧
    containsSub "---".toList
      (lineAt ("NO3 12.5 mg/l NORMAL".toList) 0) = false ∧
    runElements ("NO3 12.5 mg/l NORMAL".toList) emptyData "no3" =
      some (.q 3) := by
  refine ⟨by decide, by decide, ?_⟩
  exact (c10_value_from_symbol_digit ("NO3 12.5 mg/l NORMAL".toList)
    emptyData 0).1 (by decide) (by decide)

/-- C3: on a matched element line carrying the `---` (not detected) marker,
no numeric value is recorded for that symbol while a present status phrase
is still recorded; in particular `"Ca --- mg/l CRITICALLY LOW"` yields no
`ca` value and `ca_status = CRITICALLY_LOW`. -/
theorem c3_not_detected_marker :
    (∀ e ∈ elements, ∀ (sect : List Char) (d0 : Data) (i : Nat),
      findElemMatch e sect = some i →
      containsSub "---".toList (lineAt sect i) = true →
      d0 e.valueField = Option.none →
      runElements sect d0 e.valueField = Option.none ∧
        ∀ st, extractStatus (lineAt sect i) = some st →
          runElements sect d0 e.statusField = some (.s st)) ∧
    runElements ("Ca --- mg/l CRITICALLY LOW".toList) emptyData "ca" =
      Option.none ∧
    runElements ("Ca --- mg/l CRITICALLY LOW".toList) emptyData "ca_status" =
      some (.s "CRITICALLY_LOW") := by
  refine ⟨?_, by decide, by decide⟩
  intro e he sect d0 i hfind hdash hd0
  have hfold := foldl_proc_field sect e elements he elements_pairwise
    elements_self_ne d0
  have hself : ¬ e.valueField = e.statusField := elements_self_ne e he
  have hproc := procElement_dashes e sect d0 i hself hfind hdash
  unfold runElements
  constructor
  · rw [hfold.1, hproc.1]
    exact hd0
  · intro st hst
    rw [hfold.2]
    exact hproc.2 st hst

/-- Witness for C3's universally quantified part at the example line. -/
theorem c3_not_detected_marker_witness :
    runElements ("Ca --- mg/l CRITICALLY LOW".toList) emptyData "ca" =
        Option.none ∧
      runElements ("Ca --- mg/l CRITICALLY LOW".toList) emptyData
        "ca_status" = some (.s "CRITICALLY_LOW") := by
  have h := (c3_not_detected_marker.1 ⟨"Ca", "", "ca", "ca_status"⟩
    (by decide) ("Ca --- mg/l CRITICALLY LOW".toList) emptyData 0
    (by decide) (by decide) rfl)
  exact ⟨h.1, h.2 "CRITICALLY_LOW" (by decide)⟩

end AquaScope

namespace AquaScope

/-- The six multi-word status phrases, in priority order. -/
def multiwordStatuses : List String :=
  ["CRITICALLY LOW", "CRITICALLY HIGH", "ABOVE NORMAL", "BELOW NORMAL",
   "SLIGHTLY LOW", "SLIGHTLY HIGH"]

/-- When some multi-word phrase occurs in the uppercased line, the extracted
status is the underscored form of a contained multi-word phrase (the first
in priority order). -/
theorem extractStatus_multiword (line : List Char)
    (h : ∃ p ∈ multiwordStatuses, containsSub p.toList (up line) = true) :
    ∃ p ∈ multiwordStatuses, containsSub p.toList (up line) = true ∧
      extractStatus line = some (underscore p) := by
  by_cases h1 : containsSub "CRITICALLY LOW".toList (up line) = true
  · exact ⟨"CRITICALLY LOW", by decide, h1, by
      unfold extractStatus status_patterns
      rw [List.find?_cons_of_pos _ (by exact h1)]
      rfl⟩
  · by_cases h2 : containsSub "CRITICALLY HIGH".toList (up line) = true
    · exact ⟨"CRITICALLY HIGH", by decide, h2, by
        unfold extractStatus status_patterns
        rw [List.find?_cons_of_neg _ (by exact h1),
          List.find?_cons_of_pos _ (by exact h2)]
        rfl⟩
    · by_cases h3 : containsSub "ABOVE NORMAL".toList (up line) = true
      · exact ⟨"ABOVE NORMAL", by decide, h3, by
          unfold extractStatus status_patterns
          rw [List.find?_cons_of_neg _ (by exact h1),
            List.find?_cons_of_neg _ (by exact h2),
            List.find?_cons_of_pos _ (by exact h3)]
          rfl⟩
      · by_cases h4 : containsSub "BELOW NORMAL".toList (up line) = true
        · exact ⟨"BELOW NORMAL", by decide, h4, by
            unfold extractStatus status_patterns
            rw [List.find?_cons_of_neg _ (by exact h1),
              List.find?_cons_of_neg _ (by exact h2),
              List.find?_cons_of_neg _ (by exact h3),
              List.find?_cons_of_pos _ (by exact h4)]
            rfl⟩
        · by_cases h5 : containsSub "SLIGHTLY LOW".toList (up line) = true
          · exact ⟨"SLIGHTLY LOW", by decide, h5, by
              unfold extractStatus status_patterns
              rw [List.find?_cons_of_neg _ (by exact h1),
                List.find?_cons_of_neg _ (by exact h2),
                List.find?_cons_of_neg _ (by exact h3),
                List.find?_cons_of_neg _ (by exact h4),
                List.find?_cons_of_pos _ (by exact h5)]
              rfl⟩
          · by_cases h6 : containsSub "SLIGHTLY HIGH".toList (up line) = true
            · exact ⟨"SLIGHTLY HIGH", by decide, h6, by
                unfold extractStatus status_patterns
                rw [List.find?_cons_of_neg _ (by exact h1),
                  List.find?_cons_of_neg _ (by exact h2),
                  List.find?_cons_of_neg _ (by exact h3),
                  List.find?_cons_of_neg _ (by exact h4),
                  List.find?_cons_of_neg _ (by exact h5),
                  List.find?_cons_of_pos _ (by exact h6)]
                rfl⟩
            · obtain ⟨p, hp, hc⟩ := h
              simp only [multiwordStatuses, List.mem_cons,
                List.not_mem_nil, or_false] at hp
              rcases hp with rfl | rfl | rfl | rfl | rfl | rfl <;>
                first
                | exact absurd hc h1
                | exact absurd hc h2
                | exact absurd hc h3
                | exact absurd hc h4
                | exact absurd hc h5
                | exact absurd hc h6

/-- No multi-word phrase underscores to the bare `NORMAL` code. -/
theorem multiword_ne_NORMAL :
    ∀ p ∈ multiwordStatuses, ¬ underscore p = "NORMAL" := by decide

/-- C4: status extraction is case-insensitive (it depends only on the
uppercased line) and priority-ordered: a line containing any multi-word
phrase yields that (first matching) phrase underscored, `NORMAL` is
returned only when no multi-word phrase is present, and a line containing
`ABOVE NORMAL` or `BELOW NORMAL` never yields `NORMAL`. -/
theorem c4_status_priority :
    ∀ line : List Char,
      ((∃ p ∈ multiwordStatuses, containsSub p.toList (up line) = true) →
        ∃ p ∈ multiwordStatuses, containsSub p.toList (up line) = true ∧
          extractStatus line = some (underscore p)) ∧
      (extractStatus line = some "NORMAL" →
        ∀ p ∈ multiwordStatuses, containsSub p.toList (up line) = false) ∧
      ((containsSub "ABOVE NORMAL".toList (up line) = true ∨
          containsSub "BELOW NORMAL".toList (up line) = true) →
        ¬ extractStatus line = some "NORMAL") ∧
      ∀ line' : List Char, up line' = up line →
        extractStatus line' = extractStatus line := by
  intro line
  have key : ∀ p ∈ multiwordStatuses, containsSub p.toList (up line) = true →
      ¬ extractStatus line = some "NORMAL" := by
    intro p hp hc hN
    obtain ⟨q, hq, _, hEq⟩ := extractStatus_multiword line ⟨p, hp, hc⟩
    rw [hN] at hEq
    exact multiword_ne_NORMAL q hq (Option.some.inj hEq).symm
  refine ⟨extractStatus_multiword line, ?_, ?_, ?_⟩
  · intro hN p hp
    cases hcb : containsSub p.toList (up line) with
    | false => rfl
    | true => exact absurd hN (key p hp hcb)
  · rintro (hc | hc)
    · exact key "ABOVE NORMAL" (by decide) hc
    · exact key "BELOW NORMAL" (by decide) hc
  · intro line' hup
    simp [extractStatus, hup]

/-- Witness for C4 at a concrete lowercase line containing `above normal`. -/
theorem c4_status_priority_witness :
    containsSub "ABOVE NORMAL".toList (up "Na 10500 mg/l above normal".toList)
        = true ∧
      ¬ extractStatus "Na 10500 mg/l above normal".toList = some "NORMAL" ∧
      extractStatus "Na 10500 mg/l above normal".toList
        = some "ABOVE_NORMAL" := by
  refine ⟨by decide, ?_, by decide⟩
  exact (c4_status_priority "Na 10500 mg/l above normal".toList).2.2.1
    (Or.inl (by decide))

/-- One scan step: a suffix scan hits iff the pattern matches here or the
scan of the rest hits. -/
theorem scanSuffixes_cons_isSome {α : Type} (f : List Char → Nat → Option α)
    (c : Char) (l : List Char) (i : Nat) :
    (scanSuffixes f (c :: l) i).isSome =
      ((f (c :: l) i).isSome || (scanSuffixes f l (i + 1)).isSome) := by
  conv_lhs => rw [scanSuffixes]
  cases hf : f (c :: l) i <;> simp [hf]

/-- Two suffix scans whose per-position matchers succeed together succeed
together. -/
theorem scanSuffixes_isSome_congr {α β : Type}
    (f : List Char → Nat → Option α) (g : List Char → Nat → Option β)
    (h : ∀ t i, (f t i).isSome = (g t i).isSome) :
    ∀ (l : List Char) (i : Nat),
      (scanSuffixes f l i).isSome = (scanSuffixes g l i).isSome
  | [], i => by simpa [scanSuffixes] using h [] i
  | c :: rest, i => by
    rw [scanSuffixes_cons_isSome f, scanSuffixes_cons_isSome g, h (c :: rest) i,
      scanSuffixes_isSome_congr f g h rest (i + 1)]

/-- A suffix scan whose per-position matcher is the disjunction of two
others succeeds iff one of the two scans succeeds. -/
theorem scanSuffixes_isSome_or {α β γ : Type}
    (f : List Char → Nat → Option α) (g : List Char → Nat → Option β)
    (k : List Char → Nat → Option γ)
    (h : ∀ t i, (f t i).isSome = ((g t i).isSome || (k t i).isSome)) :
    ∀ (l : List Char) (i : Nat),
      (scanSuffixes f l i).isSome =
        ((scanSuffixes g l i).isSome || (scanSuffixes k l i).isSome)
  | [], i => by simpa [scanSuffixes] using h [] i
  | c :: rest, i => by
    rw [scanSuffixes_cons_isSome f, scanSuffixes_cons_isSome g,
      scanSuffixes_cons_isSome k, h (c :: rest) i,
      scanSuffixes_isSome_or f g k h rest (i + 1)]
    cases (g (c :: rest) i).isSome <;>
      cases (k (c :: rest) i).isSome <;>
        cases (scanSuffixes g rest (i + 1)).isSome <;>
          cases (scanSuffixes k rest (i + 1)).isSome <;> rfl

/-- The saltwater section search succeeds exactly when the saltwater
introducer occurs in the text. -/
theorem searchSaltSection_isSome (text : List Char) :
    (searchSaltSection text).isSome
      = containsCI "Results of Salt water" text := by
  unfold searchSaltSection containsCI
  exact scanSuffixes_isSome_congr _ _
    (fun t i => by
      cases hup : upPrefix "Results of Salt water".toList t <;> simp [hup])
    text 0

/-- The RO section search succeeds exactly when one of the two RO/osmosis
introducers occurs in the text. -/
theorem searchROSection_isSome (text : List Char) :
    (searchROSection text).isSome
      = (containsCI "Results of Osmosis water" text ||
          containsCI "Results of RO water" text) := by
  unfold searchROSection containsCI
  exact scanSuffixes_isSome_or _ _ _
    (fun t i => by
      cases h1 : upPrefix "Results of Osmosis water".toList t <;>
        cases h2 : upPrefix "Results of RO water".toList t <;>
          simp [h1, h2])
    text 0

/-- When both introducers occur, the section list is exactly the saltwater
span followed by the RO span. -/
theorem water_sections_both (text : List Char)
    (hs : containsCI "Results of Salt water" text = true)
    (hro : (containsCI "Results of Osmosis water" text ||
      containsCI "Results of RO water" text) = true) :
    ∃ s1 s2, water_sections text = [("saltwater", s1), ("ro_water", s2)] := by
  have h1 : (searchSaltSection text).isSome = true := by
    rw [searchSaltSection_isSome]; exact hs
  have h2 : (searchROSection text).isSome = true := by
    rw [searchROSection_isSome]; exact hro
  obtain ⟨s1, hs1⟩ := Option.isSome_iff_exists.mp h1
  obtain ⟨s2, hs2⟩ := Option.isSome_iff_exists.mp h2
  refine ⟨s1, s2, ?_⟩
  unfold water_sections
  rw [hs1, hs2]
  rfl

/-- When neither introducer occurs, the section list is the single implicit
saltwater section covering the whole text. -/
theorem water_sections_neither (text : List Char)
    (hs : containsCI "Results of Salt water" text = false)
    (h1 : containsCI "Results of Osmosis water" text = false)
    (h2 : containsCI "Results of RO water" text = false) :
    water_sections text = [("saltwater", text)] := by
  have hsalt : searchSaltSection text = Option.none := by
    have := searchSaltSection_isSome text
    rw [hs] at this
    exact Option.not_isSome_iff_eq_none.mp (by simp [this])
  have hro : searchROSection text = Option.none := by
    have := searchROSection_isSome text
    rw [h1, h2] at this
    exact Option.not_isSome_iff_eq_none.mp (by simp [this])
  unfold water_sections
  rw [hsalt, hro]
  rfl

/-- The section list is never empty. -/
theorem water_sections_ne_nil (text : List Char) :
    ¬ water_sections text = [] := by
  unfold water_sections
  cases searchSaltSection text <;> cases searchROSection text <;> simp

/-- A metadata step writes only its own field. -/
theorem applyPattern_preserve (lbl fld : String) (text : List Char)
    (d d' : Data) (k : String) (hk : ¬ k = fld)
    (h : applyPattern lbl fld text d = .ok d') : d' k = d k := by
  unfold applyPattern at h
  cases hs : searchLabelLine lbl text with
  | none =>
    rw [hs] at h
    cases h
    rfl
  | some g =>
    rw [hs] at h
    dsimp only at h
    cases hp : parse_dateL g with
    | error e => rw [hp] at h; cases h
    | ok od =>
      rw [hp] at h
      cases od with
      | none => cases h; rfl
      | some dt =>
        cases h
        exact dset_ne _ _ _ _ hk

/-- A metadata step whose label matches with a parseable date stores exactly
that date. -/
theorem applyPattern_writes (lbl fld : String) (text : List Char)
    (d d' : Data) (g : List Char) (dt : Date)
    (hs : searchLabelLine lbl text = some g)
    (hp : parse_dateL g = .ok (some dt))
    (h : applyPattern lbl fld text d = .ok d') :
    d' = dset d fld (.d dt) := by
  unfold applyPattern at h
  rw [hs] at h
  dsimp only at h
  rw [hp] at h
  cases h
  rfl

/-- The test-ID step writes only `test_id`. -/
theorem addTestId_preserve (text : List Char) (d : Data) (k : String)
    (hk : ¬ k = "test_id") : addTestId text d k = d k := by
  unfold addTestId
  cases searchTestId text with
  | none => rfl
  | some ds => exact dset_ne _ _ _ _ hk

/-- Decomposition of the metadata scan into its six label steps. -/
theorem bodyMeta_decomp (text : List Char) (bm : Data)
    (h : bodyMeta text = .ok bm) :
    ∃ d1 d2 d3 d4 d5,
      applyPattern "Test Date" "test_date" text (addTestId text emptyData)
          = .ok d1 ∧
        applyPattern "Created" "sample_date" text d1 = .ok d2 ∧
        applyPattern "Sample Date" "sample_date" text d2 = .ok d3 ∧
        applyPattern "Arrived in the laboratory" "received_date" text d3
          = .ok d4 ∧
        applyPattern "Received" "received_date" text d4 = .ok d5 ∧
        applyPattern "Evaluated" "evaluated_date" text d5 = .ok bm := by
  unfold bodyMeta at h
  cases h1 : applyPattern "Test Date" "test_date" text
      (addTestId text emptyData) with
  | error e => rw [h1] at h; cases h
  | ok d1 =>
  rw [h1] at h
  dsimp only [Except.bind] at h
  cases h2 : applyPattern "Created" "sample_date" text d1 with
  | error e => rw [h2] at h; cases h
  | ok d2 =>
  rw [h2] at h
  dsimp only [Except.bind] at h
  cases h3 : applyPattern "Sample Date" "sample_date" text d2 with
  | error e => rw [h3] at h; cases h
  | ok d3 =>
  rw [h3] at h
  dsimp only [Except.bind] at h
  cases h4 : applyPattern "Arrived in the laboratory" "received_date"
      text d3 with
  | error e => rw [h4] at h; cases h
  | ok d4 =>
  rw [h4] at h
  dsimp only [Except.bind] at h
  cases h5 : applyPattern "Received" "received_date" text d4 with
  | error e => rw [h5] at h; cases h
  | ok d5 =>
  rw [h5] at h
  dsimp only [Except.bind] at h
  exact ⟨d1, d2, d3, d4, d5, rfl, h2, h3, h4, h5, h⟩

/-- Fields the metadata scan never touches stay absent. -/
theorem bodyMeta_none (text : List Char) (bm : Data) (k : String)
    (h : bodyMeta text = .ok bm)
    (h0 : ¬ k = "test_id") (h1 : ¬ k = "test_date") (h2 : ¬ k = "sample_date")
    (h3 : ¬ k = "received_date") (h4 : ¬ k = "evaluated_date") :
    bm k = Option.none := by
  obtain ⟨e1, e2, e3, e4, e5, p1, p2, p3, p4, p5, p6⟩ := bodyMeta_decomp text bm h
  rw [applyPattern_preserve _ _ _ _ _ _ h4 p6,
    applyPattern_preserve _ _ _ _ _ _ h3 p5,
    applyPattern_preserve _ _ _ _ _ _ h3 p4,
    applyPattern_preserve _ _ _ _ _ _ h2 p3,
    applyPattern_preserve _ _ _ _ _ _ h2 p2,
    applyPattern_preserve _ _ _ _ _ _ h1 p1,
    addTestId_preserve _ _ _ h0]
  rfl

/-- The evaluated-date fallback: with no body test date but an evaluated
date, the shared metadata's test date becomes the evaluated date. -/
theorem addFallbacks_evaluated (fn : List Char) (bm : Data) (v : Val)
    (ht : bm "test_date" = Option.none)
    (he : bm "evaluated_date" = some v) :
    addFallbacks fn bm = .ok (dset bm "test_date" v) := by
  have h1 : addEvaluatedFallback bm = dset bm "test_date" v := by
    unfold addEvaluatedFallback
    rw [if_pos (by simp [dmem, ht, he]), he]
  unfold addFallbacks addFilenameFallback
  rw [h1, if_pos (by simp [dmem, dset_same])]

/-- The filename fallback: with no body test date and no evaluated date, a
date substring recovered from the filename becomes the test date. -/
theorem addFallbacks_filename (fn : List Char) (bm : Data) (sub : List Char)
    (dt : Date) (ht : bm "test_date" = Option.none)
    (he : bm "evaluated_date" = Option.none)
    (hs : searchISOsub fn = some sub)
    (hp : parse_dateL sub = .ok (some dt)) :
    addFallbacks fn bm = .ok (dset bm "test_date" (.d dt)) := by
  have h1 : addEvaluatedFallback bm = bm := by
    unfold addEvaluatedFallback
    rw [if_neg (by simp [dmem, ht, he])]
  unfold addFallbacks addFilenameFallback
  rw [h1, if_neg (by simp [dmem, ht]), hs]
  dsimp only
  rw [hp]

/-- The score fold writes only score fields. -/
theorem foldl_score_preserve (sect : List Char) (k : String) :
    ∀ (maps : List (String × String)), (∀ p ∈ maps, ¬ p.2 = k) →
      ∀ dt : Data,
        (maps.foldl (fun a p =>
          match extract_score sect p.1 with
          | some v => dset a p.2 (.n v)
          | Option.none => a) dt) k = dt k
  | [], _, dt => rfl
  | p :: rest, h, dt => by
    have hrest := foldl_score_preserve sect k rest
      (fun y hy => h y (by simp [hy]))
    simp only [List.foldl_cons]
    rw [hrest]
    cases extract_score sect p.1 with
    | none => rfl
    | some v => exact dset_ne _ _ _ _ (fun he => h p (by simp) he.symm)

/-- The recommendations extractor writes only `recommendations`. -/
theorem addRecommendations_preserve (sect : List Char) (dt : Data)
    (k : String) (hk : ¬ k = "recommendations") :
    addRecommendations sect dt k = dt k := by
  unfold addRecommendations
  cases searchNarrative "Recommendation" sect with
  | none => rfl
  | some body =>
    dsimp only
    split
    · rfl
    · exact dset_ne _ _ _ _ hk

/-- The dosing extractor writes only `dosing_instructions`. -/
theorem addDosing_preserve (sect : List Char) (dt : Data) (k : String)
    (hk : ¬ k = "dosing_instructions") : addDosing sect dt k = dt k := by
  unfold addDosing
  cases searchNarrative "Dosing Instruction" sect with
  | none => rfl
  | some body => exact dset_ne _ _ _ _ hk

/-- A field no extraction stage writes is exactly the merged base/shared
value in the assembled record. -/
theorem buildRecord_field (shared : Data) (wt : String) (sect : List Char)
    (k : String)
    (hsc : ∀ p ∈ score_mappings, ¬ p.2 = k)
    (hel : ∀ x ∈ elements, ¬ x.valueField = k ∧ ¬ x.statusField = k)
    (hrec : ¬ k = "recommendations") (hdos : ¬ k = "dosing_instructions") :
    buildRecord shared wt sect k =
      (match shared k with
       | some v => some v
       | Option.none =>
         if k = "lab_name" then some (.s "ATI Aquaristik")
         else if k = "water_type" then some (.s wt)
         else Option.none) := by
  unfold buildRecord
  rw [addDosing_preserve _ _ _ hdos, addRecommendations_preserve _ _ _ hrec]
  unfold runElements
  rw [foldl_proc_preserve sect k elements hel,
    foldl_score_preserve sect k score_mappings hsc]

/-- A successful section fold produces exactly one assembled record per
section, in order. -/
theorem parse_fold_ok (shared : Data) :
    ∀ (l : List (String × List Char)) (acc rs : List Data),
      (l.foldlM (fun acc p =>
        let dt := buildRecord shared p.1 p.2
        if dmem dt "test_date" then Except.ok (acc ++ [dt])
        else Except.error PErr.missingTestDate) acc) = .ok rs →
      rs = acc ++ l.map fun p => buildRecord shared p.1 p.2
  | [], acc, rs, h => by
    cases h
    simp
  | p :: rest, acc, rs, h => by
    rw [List.foldlM_cons] at h
    dsimp only at h
    cases hd : dmem (buildRecord shared p.1 p.2) "test_date" with
    | false =>
      rw [if_neg (by simp [hd])] at h
      cases h
    | true =>
      rw [if_pos (by simp [hd])] at h
      have := parse_fold_ok shared rest (acc ++ [buildRecord shared p.1 p.2])
        rs (by simpa using h)
      simpa [List.append_assoc] using this

/-- When every section's record carries a test date, the section fold
succeeds with the full record list. -/
theorem parse_fold_ok_of (shared : Data) :
    ∀ (l : List (String × List Char)),
      (∀ p ∈ l, dmem (buildRecord shared p.1 p.2) "test_date" = true) →
      ∀ acc : List Data,
        (l.foldlM (fun acc p =>
          let dt := buildRecord shared p.1 p.2
          if dmem dt "test_date" then Except.ok (acc ++ [dt])
          else Except.error PErr.missingTestDate) acc)
          = .ok (acc ++ l.map fun p => buildRecord shared p.1 p.2)
  | [], _, acc => by simp; rfl
  | p :: rest, h, acc => by
    rw [List.foldlM_cons]
    dsimp only
    rw [if_pos (by simp [h p (by simp)])]
    have := parse_fold_ok_of shared rest (fun y hy => h y (by simp [hy]))
      (acc ++ [buildRecord shared p.1 p.2])
    simpa [List.append_assoc] using this

/-- A successful parse yields one record per water section, assembled from
the successfully computed shared metadata. -/
theorem parse_ok_decomp (text fn : List Char) (rs : List Data)
    (h : parse_ati_pdf text fn = .ok rs) :
    ∃ shared, computeShared text fn = .ok shared ∧
      rs = (water_sections text).map fun p => buildRecord shared p.1 p.2 := by
  unfold parse_ati_pdf at h
  cases hcs : computeShared text fn with
  | error e =>
    rw [hcs] at h
    dsimp only [Except.bind] at h
    cases h
  | ok shared =>
    rw [hcs] at h
    dsimp only [Except.bind] at h
    exact ⟨shared, rfl, by simpa using parse_fold_ok shared _ _ _ h⟩

/-- A parse with computed shared metadata and a test date in every record
succeeds. -/
theorem parse_ok_of_shared (text fn : List Char) (shared : Data)
    (hcs : computeShared text fn = .ok shared)
    (h : ∀ p ∈ water_sections text,
      dmem (buildRecord shared p.1 p.2) "test_date" = true) :
    parse_ati_pdf text fn
      = .ok ((water_sections text).map fun p => buildRecord shared p.1 p.2)
    := by
  unfold parse_ati_pdf
  rw [hcs]
  dsimp only [Except.bind]
  simpa using parse_fold_ok_of shared (water_sections text) h []

/-- Is a fallible result a success? (used to state concrete evaluations). -/
def isOkE {e a : Type} : Except e a → Bool
  | .ok _ => true
  | .error _ => false

/-- The record list of a successful parse, `[]` on failure. -/
def okRecords (x : Except PErr (List Data)) : List Data :=
  match x with
  | .ok l => l
  | .error _ => []

/-- The dict of a successful metadata scan, empty on failure. -/
def okData (x : Except PErr Data) : Data :=
  match x with
  | .ok d => d
  | .error _ => emptyData

theorem parse_eq_okRecords (text fn : List Char)
    (h : isOkE (parse_ati_pdf text fn) = true) :
    parse_ati_pdf text fn = .ok (okRecords (parse_ati_pdf text fn)) := by
  cases hp : parse_ati_pdf text fn with
  | ok l => rfl
  | error e => rw [hp] at h; simp [isOkE] at h

theorem bodyMeta_eq_okData (text : List Char)
    (h : isOkE (bodyMeta text) = true) :
    bodyMeta text = .ok (okData (bodyMeta text)) := by
  cases hp : bodyMeta text with
  | ok d => rfl
  | error e => rw [hp] at h; simp [isOkE] at h

/-- Decomposition of the shared-metadata computation. -/
theorem computeShared_decomp (text fn : List Char) (sm : Data)
    (h : computeShared text fn = .ok sm) :
    ∃ bm, bodyMeta text = .ok bm ∧ addFallbacks fn bm = .ok sm := by
  unfold computeShared at h
  cases hb : bodyMeta text with
  | error e => rw [hb] at h; dsimp only [Except.bind] at h; cases h
  | ok bm =>
    rw [hb] at h
    dsimp only [Except.bind] at h
    exact ⟨bm, rfl, h⟩

/-- The evaluated fallback writes only `test_date`. -/
theorem addEvaluatedFallback_preserve (bm : Data) (k : String)
    (hk : ¬ k = "test_date") : addEvaluatedFallback bm k = bm k := by
  unfold addEvaluatedFallback
  split
  · cases bm "evaluated_date" with
    | none => rfl
    | some v => exact dset_ne _ _ _ _ hk
  · rfl

/-- The two fallbacks write only `test_date`. -/
theorem addFallbacks_preserve (fn : List Char) (bm sm : Data) (k : String)
    (h : addFallbacks fn bm = .ok sm) (hk : ¬ k = "test_date") :
    sm k = bm k := by
  unfold addFallbacks addFilenameFallback at h
  rw [← addEvaluatedFallback_preserve bm k hk]
  split at h
  · cases h; rfl
  · cases hs : searchISOsub fn with
    | none => rw [hs] at h; cases h; rfl
    | some sub =>
      rw [hs] at h
      dsimp only at h
      cases hp : parse_dateL sub with
      | error e => rw [hp] at h; cases h
      | ok od =>
        rw [hp] at h
        cases od with
        | none => cases h; exact dset_ne _ _ _ _ hk
        | some d => cases h; exact dset_ne _ _ _ _ hk

/-- Fields outside the shared-metadata vocabulary are absent from the
computed shared metadata. -/
theorem computeShared_none (text fn : List Char) (sm : Data) (k : String)
    (h : computeShared text fn = .ok sm)
    (h0 : ¬ k = "test_id") (h1 : ¬ k = "test_date")
    (h2 : ¬ k = "sample_date") (h3 : ¬ k = "received_date")
    (h4 : ¬ k = "evaluated_date") : sm k = Option.none := by
  obtain ⟨bm, hbm, hf⟩ := computeShared_decomp text fn sm h
  rw [addFallbacks_preserve fn bm sm k hf h1]
  exact bodyMeta_none text bm k hbm h0 h1 h2 h3 h4

/-- C1: on a successful parse, a document with both the saltwater and the
RO/osmosis introducers yields exactly two records tagged `saltwater` and
`ro_water`; a document with neither introducer yields exactly one
`saltwater` record built from the whole input; and the section list is
never empty. -/
theorem c1_section_segmentation :
    ∀ text fn : List Char,
      ¬ water_sections text = [] ∧
      ∀ rs : List Data, parse_ati_pdf text fn = .ok rs →
        ((containsCI "Results of Salt water" text = true ∧
          (containsCI "Results of Osmosis water" text = true ∨
            containsCI "Results of RO water" text = true)) →
          rs.length = 2 ∧
            rs.map (fun r => r "water_type")
              = [some (.s "saltwater"), some (.s "ro_water")]) ∧
        ((containsCI "Results of Salt water" text = false ∧
          containsCI "Results of Osmosis water" text = false ∧
          containsCI "Results of RO water" text = false) →
          water_sections text = [("saltwater", text)] ∧ rs.length = 1 ∧
            rs.map (fun r => r "water_type") = [some (.s "saltwater")]) := by
  intro text fn
  refine ⟨water_sections_ne_nil text, ?_⟩
  intro rs hok
  obtain ⟨shared, hcs, hrs⟩ := parse_ok_decomp text fn rs hok
  have hwt : shared "water_type" = Option.none :=
    computeShared_none text fn shared "water_type" hcs
      (by decide) (by decide) (by decide) (by decide) (by decide)
  have hb : ∀ (wt : String) (sect : List Char),
      buildRecord shared wt sect "water_type" = some (.s wt) := by
    intro wt sect
    rw [buildRecord_field shared wt sect "water_type"
      (by decide) (by decide) (by decide) (by decide), hwt]
    rfl
  constructor
  · rintro ⟨hs, hro⟩
    obtain ⟨s1, s2, hsec⟩ := water_sections_both text hs
      (Bool.or_eq_true _ _ |>.mpr hro)
    rw [hrs, hsec]
    simp [hb]
  · rintro ⟨hs, h1, h2⟩
    have hsec := water_sections_neither text hs h1 h2
    rw [hrs, hsec]
    refine ⟨rfl, by simp, by simp [hb]⟩

/-- A two-section document with an evaluated date and one saltwater
element line. -/
def c1text : List Char :=
  ("Results of Salt water\nEvaluated: 02/07/2026\nCa 420 mg/l NORMAL\n" ++
    "Results of Osmosis water\nno elements").toList

/-- Its source filename. -/
def c1fn : List Char := "report.pdf".toList

/-- Witness for C1 on a concrete two-section document. -/
theorem c1_section_segmentation_witness :
    containsCI "Results of Salt water" c1text = true ∧
      containsCI "Results of Osmosis water" c1text = true ∧
      (okRecords (parse_ati_pdf c1text c1fn)).length = 2 ∧
      (okRecords (parse_ati_pdf c1text c1fn)).map (fun r => r "water_type")
        = [some (.s "saltwater"), some (.s "ro_water")] := by
  have hok := parse_eq_okRecords c1text c1fn (by decide)
  have h := ((c1_section_segmentation c1text c1fn).2
    (okRecords (parse_ati_pdf c1text c1fn)) hok).1
    ⟨by decide, Or.inl (by decide)⟩
  exact ⟨by decide, by decide, h.1, h.2⟩

/-- C6: when the body text yields no test date, the evaluated date (when
present) becomes the test date of every output record; when neither is
present and the filename carries a parseable `YYYY-MM-DD` substring, the
parse succeeds and every record carries the date recovered from the
filename. -/
theorem c6_test_date_fallbacks :
    ∀ (text fn : List Char) (bm : Data),
      bodyMeta text = .ok bm → bm "test_date" = Option.none →
      (∀ v : Val, bm "evaluated_date" = some v →
        ∀ rs : List Data, parse_ati_pdf text fn = .ok rs →
          ∀ r ∈ rs, r "test_date" = some v) ∧
      (bm "evaluated_date" = Option.none →
        ∀ (sub : List Char) (dt : Date), searchISOsub fn = some sub →
          parse_dateL sub = .ok (some dt) →
          ∃ rs : List Data, parse_ati_pdf text fn = .ok rs ∧ ¬ rs = [] ∧
            ∀ r ∈ rs, r "test_date" = some (.d dt)) := by
  intro text fn bm hbm ht
  have hrecord : ∀ (shared : Data) (v : Val), shared "test_date" = some v →
      ∀ (wt : String) (sect : List Char),
        buildRecord shared wt sect "test_date" = some v := by
    intro shared v hv wt sect
    rw [buildRecord_field shared wt sect "test_date"
      (by decide) (by decide) (by decide) (by decide), hv]
  constructor
  · intro v hev rs hok r hr
    obtain ⟨shared, hcs, hrs⟩ := parse_ok_decomp text fn rs hok
    have hsh : shared = dset bm "test_date" v := by
      obtain ⟨bm', hbm', hf⟩ := computeShared_decomp text fn shared hcs
      rw [hbm] at hbm'
      cases hbm'
      rw [addFallbacks_evaluated fn bm v ht hev] at hf
      exact (Except.ok.inj hf).symm
    have hshv : shared "test_date" = some v := by
      rw [hsh]; exact dset_same _ _ _
    rw [hrs] at hr
    obtain ⟨p, hp, rfl⟩ := List.mem_map.mp hr
    exact hrecord shared v hshv p.1 p.2
  · intro hev sub dt hsub hp
    have hcs : computeShared text fn = .ok (dset bm "test_date" (.d dt)) := by
      unfold computeShared
      rw [hbm]
      dsimp only [Except.bind]
      exact addFallbacks_filename fn bm sub dt ht hev hsub hp
    have hshv : (dset bm "test_date" (.d dt)) "test_date" = some (.d dt) :=
      dset_same _ _ _
    have hall : ∀ p ∈ water_sections text,
        dmem (buildRecord (dset bm "test_date" (.d dt)) p.1 p.2)
          "test_date" = true := by
      intro p _
      unfold dmem
      rw [hrecord _ _ hshv p.1 p.2]
      rfl
    refine ⟨_, parse_ok_of_shared text fn _ hcs hall, ?_, ?_⟩
    · intro hnil
      exact water_sections_ne_nil text (List.map_eq_nil_iff.mp hnil)
    · intro r hr
      obtain ⟨p, hp, rfl⟩ := List.mem_map.mp hr
      exact hrecord _ _ hshv p.1 p.2

/-- A document whose only date label is `Evaluated`. -/
def c6ta : List Char := "Evaluated: 02/07/2026\nCa 420 mg/l NORMAL".toList

/-- A document with no date label at all. -/
def c6tb : List Char := "Ca 420 mg/l NORMAL".toList

/-- A filename carrying an ISO date. -/
def c6fb : List Char := "icp_2026-02-07_report.pdf".toList

/-- Witness for C6: the evaluated-date fallback and the filename fallback
on concrete documents. -/
theorem c6_test_date_fallbacks_witness :
    (okRecords (parse_ati_pdf c6ta "x.pdf".toList)).map
        (fun r => r "test_date") = [some (.d ⟨2026, 2, 7⟩)] ∧
      (okRecords (parse_ati_pdf c6tb c6fb)).map (fun r => r "test_date")
        = [some (.d ⟨2026, 2, 7⟩)] := by
  constructor
  · have hbm := bodyMeta_eq_okData c6ta (by decide)
    have hok := parse_eq_okRecords c6ta "x.pdf".toList (by decide)
    have h := (c6_test_date_fallbacks c6ta "x.pdf".toList
        (okData (bodyMeta c6ta)) hbm (by decide)).1
      (.d ⟨2026, 2, 7⟩) (by decide) _ hok
    have hlen : (okRecords (parse_ati_pdf c6ta "x.pdf".toList)).length = 1 :=
      by decide
    obtain ⟨a, ha⟩ := List.length_eq_one.mp hlen
    rw [ha]
    rw [ha] at h
    simp only [List.map_cons, List.map_nil]
    rw [h a (by simp)]
  · have hbm := bodyMeta_eq_okData c6tb (by decide)
    obtain ⟨rs, hok, hne, hall⟩ := (c6_test_date_fallbacks c6tb c6fb
        (okData (bodyMeta c6tb)) hbm (by decide)).2
      (by decide) ("2026-02-07".toList) ⟨2026, 2, 7⟩ (by decide) (by decide)
    have hrs : okRecords (parse_ati_pdf c6tb c6fb) = rs := by rw [hok]; rfl
    rw [← hrs] at hall
    have hlen : (okRecords (parse_ati_pdf c6tb c6fb)).length = 1 := by decide
    obtain ⟨a, ha⟩ := List.length_eq_one.mp hlen
    rw [ha]
    rw [ha] at hall
    simp only [List.map_cons, List.map_nil]
    rw [hall a (by simp)]

/-- A document in which two synonyms for `sample_date` both carry
parseable dates. -/
def c7text : List Char :=
  "Created: 01/02/2026\nSample Date: 03/04/2026".toList

/-- C7 counterexample: both `Created` (first in scan order, date
2026-01-02) and `Sample Date` (second, date 2026-03-04) match, yet the
output field holds the second synonym's date — the loop assigns
unconditionally, so the last synonym in the pattern list wins, not the
first match by scan order. -/
theorem c7_counterexample_last_wins :
    searchLabelLine "Created" c7text = some "01/02/2026".toList ∧
      parse_dateL "01/02/2026".toList = .ok (some ⟨2026, 1, 2⟩) ∧
      searchLabelLine "Sample Date" c7text = some "03/04/2026".toList ∧
      parse_dateL "03/04/2026".toList = .ok (some ⟨2026, 3, 4⟩) ∧
      okData (bodyMeta c7text) "sample_date" = some (.d ⟨2026, 3, 4⟩) ∧
      ¬ okData (bodyMeta c7text) "sample_date" = some (.d ⟨2026, 1, 2⟩) := by
  refine ⟨by decide, by decide, by decide, by decide, by decide, by decide⟩

/-- C7 as amended: when multiple label synonyms for the same field carry
parseable dates, the synonym latest in the fixed pattern list wins — each
later match overwrites the earlier value.  Whenever the last-listed synonym
of a field (`Sample Date` for `sample_date`, `Received` for
`received_date`) matches with a parseable date, the output field holds that
date, regardless of the earlier synonym. -/
theorem c7_last_synonym_wins :
    ∀ (text : List Char) (bm : Data), bodyMeta text = .ok bm →
      (∀ (g : List Char) (dt : Date),
        searchLabelLine "Sample Date" text = some g →
        parse_dateL g = .ok (some dt) →
        bm "sample_date" = some (.d dt)) ∧
      (∀ (g : List Char) (dt : Date),
        searchLabelLine "Received" text = some g →
        parse_dateL g = .ok (some dt) →
        bm "received_date" = some (.d dt)) := by
  intro text bm h
  obtain ⟨d1, d2, d3, d4, d5, p1, p2, p3, p4, p5, p6⟩ :=
    bodyMeta_decomp text bm h
  constructor
  · intro g dt hs hp
    rw [applyPattern_preserve _ _ _ _ _ _ (by decide) p6,
      applyPattern_preserve _ _ _ _ _ _ (by decide) p5,
      applyPattern_preserve _ _ _ _ _ _ (by decide) p4,
      applyPattern_writes _ _ _ _ _ _ _ hs hp p3]
    exact dset_same _ _ _
  · intro g dt hs hp
    rw [applyPattern_preserve _ _ _ _ _ _ (by decide) p6,
      applyPattern_writes _ _ _ _ _ _ _ hs hp p5]
    exact dset_same _ _ _

/-- A document in which two synonyms for `received_date` both carry
parseable dates. -/
def c7wtext : List Char :=
  "Arrived in the laboratory: 01/02/2026\nReceived: 03/04/2026".toList

/-- Witness for the amended C7 on the `received_date` synonyms. -/
theorem c7_last_synonym_wins_witness :
    okData (bodyMeta c7wtext) "received_date" = some (.d ⟨2026, 3, 4⟩) := by
  have hbm := bodyMeta_eq_okData c7wtext (by decide)
  exact (c7_last_synonym_wins c7wtext (okData (bodyMeta c7wtext)) hbm).2
    "03/04/2026".toList ⟨2026, 3, 4⟩ (by decide) (by decide)

theorem except_bind_error {e a b : Type} (er : e)
    (f : a → Except e b) : (Except.error er >>= f) = Except.error er := rfl

theorem except_bind_ok {e a b : Type} (x : a) (f : a → Except e b) :
    (Except.ok x >>= f : Except e b) = f x := rfl

/-- The first validation failure inside the upload loop aborts the whole
fold: no record list is produced. -/
theorem foldlM_validate_error :
    ∀ (tests : List Data) (dt : Data), dt ∈ tests →
      ∀ v : VErr, validate_parsed_data dt = .error v →
      ∀ (acc rs : List Data),
        ¬ (tests.foldlM (fun acc d =>
          match validate_parsed_data d with
          | .ok _ => Except.ok (acc ++ [d])
          | .error v => Except.error (UErr.validation v)) acc) = .ok rs
  | [], dt, hdt, _, _, _, _ => by cases hdt
  | a :: rest, dt, hdt, v, hv, acc, rs => by
    rw [List.foldlM_cons]
    cases hva : validate_parsed_data a with
    | error w =>
      dsimp only
      rw [except_bind_error]
      intro hcontra
      cases hcontra
    | ok u =>
      dsimp only
      rw [except_bind_ok]
      rcases List.mem_cons.mp hdt with rfl | hmem
      · rw [hva] at hv
        cases hv
      · exact foldlM_validate_error rest dt hmem v hv
          (acc ++ [a]) rs

/-- C9 as amended: in the upload endpoint a validation failure of any
section's record aborts the whole upload — no record list is produced for
the document (all-or-nothing), rather than only that record. -/
theorem c9_validation_aborts_upload :
    ∀ (text fn : List Char) (tests : List Data),
      parse_ati_pdf text fn = .ok tests →
      ∀ dt ∈ tests, ∀ v : VErr, validate_parsed_data dt = .error v →
      ∀ rs : List Data, ¬ uploadRecords text fn = .ok rs := by
  intro text fn tests hok dt hdt v hv rs
  unfold uploadRecords
  rw [hok]
  dsimp only
  have hne : tests.isEmpty = false := by
    cases tests with
    | nil => cases hdt
    | cons a rest => rfl
  rw [if_neg (by simp [hne])]
  exact foldlM_validate_error tests dt hdt v hv [] rs

/-- A two-section document whose RO section has no extractable data. -/
def c9text : List Char :=
  ("Results of Salt water\nEvaluated: 02/07/2026\nCa 420 mg/l NORMAL\n" ++
    "Results of Osmosis water\nno readings").toList

/-- Its source filename. -/
def c9fn : List Char := "icp.pdf".toList

/-- C9 counterexample: the document parses into two records; the saltwater
record validates and the RO record fails validation, yet the upload
produces no records at all — the claim's surviving sibling record is not
produced. -/
theorem c9_counterexample_abort_all :
    (okRecords (parse_ati_pdf c9text c9fn)).length = 2 ∧
      (okRecords (parse_ati_pdf c9text c9fn)).map validate_parsed_data
        = [.ok (), .error VErr.noExtractableData] ∧
      (uploadRecords c9text c9fn).map (fun _ => ())
        = .error (UErr.validation VErr.noExtractableData) := by
  refine ⟨by decide, by decide, by decide⟩

/-- A single-section document with a test date but no element data. -/
def c9wt : List Char := "Evaluated: 02/07/2026\nnothing here".toList

/-- Its source filename. -/
def c9wfn : List Char := "r.pdf".toList

/-- Witness for the amended C9 at a concrete failing document. -/
theorem c9_validation_aborts_upload_witness :
    ¬ uploadRecords c9wt c9wfn = .ok [] := by
  have hok := parse_eq_okRecords c9wt c9wfn (by decide)
  have hlen : (okRecords (parse_ati_pdf c9wt c9wfn)).length = 1 := by decide
  obtain ⟨a, ha⟩ := List.length_eq_one.mp hlen
  have hval : validate_parsed_data a = .error VErr.noExtractableData := by
    have hmap : (okRecords (parse_ati_pdf c9wt c9wfn)).map
        validate_parsed_data = [.error VErr.noExtractableData] := by decide
    rw [ha] at hmap
    simpa using hmap
  exact c9_validation_aborts_upload c9wt c9wfn
    (okRecords (parse_ati_pdf c9wt c9wfn)) hok a
    (ha ▸ List.mem_singleton.mpr rfl) VErr.noExtractableData hval []

/-- A line starting `Sr` or `Sb` is not a match for the bare `S` row: the
pattern requires whitespace right after the symbol. -/
theorem elemMatchB_S_of_SrSb (text : List Char) (i : Nat)
    (h : ("Sr".toList.isPrefixOf (text.drop i) ||
      "Sb".toList.isPrefixOf (text.drop i)) = true) :
    elemMatchB ⟨"S", "", "s", "s_status"⟩ text i = false := by
  have hr : isWS 'r' = false := by decide
  have hb : isWS 'b' = false := by decide
  rcases Bool.or_eq_true _ _ |>.mp h with hp | hp
  · obtain ⟨t0, ht0⟩ := List.isPrefixOf_iff_prefix.mp hp
    unfold elemMatchB
    rw [← ht0]
    simp [existsWsThen, hr]
  · obtain ⟨t0, ht0⟩ := List.isPrefixOf_iff_prefix.mp hp
    unfold elemMatchB
    rw [← ht0]
    simp [existsWsThen, hb]

/-- C5: every element reading comes from the first line-start position whose
line matches the symbol followed by whitespace; a line beginning `Sr` or
`Sb` never matches the bare symbol `S`, and in a section where every
S-starting line start continues with `r` or `b` the `S` row matches nothing
and the `s`/`s_status` fields are left untouched. -/
theorem c5_line_start_anchoring :
    (∀ e ∈ elements, ∀ (text : List Char) (i : Nat),
      findElemMatch e text = some i →
      (isLineStartB text i && elemMatchB e text i) = true ∧
        ∀ j < i, (isLineStartB text j && elemMatchB e text j) = false) ∧
    (∀ (text : List Char) (i : Nat),
      ("Sr".toList.isPrefixOf (text.drop i) ||
        "Sb".toList.isPrefixOf (text.drop i)) = true →
      elemMatchB ⟨"S", "", "s", "s_status"⟩ text i = false) ∧
    (∀ text : List Char,
      (∀ i < text.length + 1,
        (isLineStartB text i && "S".toList.isPrefixOf (text.drop i)) = true →
        ("Sr".toList.isPrefixOf (text.drop i) ||
          "Sb".toList.isPrefixOf (text.drop i)) = true) →
      findElemMatch ⟨"S", "", "s", "s_status"⟩ text = Option.none ∧
        ∀ d0 : Data, runElements text d0 "s" = d0 "s" ∧
          runElements text d0 "s_status" = d0 "s_status") := by
  refine ⟨fun e _ text i h => findElemMatch_spec e text i h,
    elemMatchB_S_of_SrSb, ?_⟩
  intro text hyp
  have hnone : findElemMatch ⟨"S", "", "s", "s_status"⟩ text
      = Option.none := by
    unfold findElemMatch
    apply List.find?_eq_none.mpr
    intro i hi
    intro hcontra
    have hlt := List.mem_range.mp hi
    have hand := Bool.and_eq_true _ _ |>.mp hcontra
    have hm := hand.2
    unfold elemMatchB at hm
    have hm' := Bool.and_eq_true _ _ |>.mp hm
    have hSrSb := hyp i hlt (by
      rw [Bool.and_eq_true]
      exact ⟨hand.1, hm'.1⟩)
    have := elemMatchB_S_of_SrSb text i hSrSb
    rw [elemMatchB] at this
    rw [this] at hm
    cases hm
  refine ⟨hnone, fun d0 => ?_⟩
  have hfold := foldl_proc_field text ⟨"S", "", "s", "s_status"⟩ elements
    (by decide) elements_pairwise elements_self_ne d0
  have hproc : procElement ⟨"S", "", "s", "s_status"⟩ text d0 = d0 := by
    unfold procElement
    rw [hnone]
  constructor
  · rw [runElements, hfold.1, hproc]
  · rw [runElements, hfold.2, hproc]

/-- Witness for C5 on a section whose only S-starting lines are `Sr`/`Sb`
lines. -/
theorem c5_line_start_anchoring_witness :
    findElemMatch ⟨"S", "", "s", "s_status"⟩
        ("Sr 8 NORMAL\nSb 1 NORMAL".toList) = Option.none ∧
      runElements ("Sr 8 NORMAL\nSb 1 NORMAL".toList) emptyData "s"
        = Option.none := by
  have h := c5_line_start_anchoring.2.2 ("Sr 8 NORMAL\nSb 1 NORMAL".toList)
    (by decide)
  exact ⟨h.1, (h.2 emptyData).1⟩

/-- Modelled from the spec: the anchor set as the specification's words
describe it — "the base/major element values or their status fields"
(base elements: salinity, KH; major elements: Cl, Na, Mg, S, Ca, K, Br,
Sr, B, F).  Defined only to compare the spec's characterization of the
designated anchor set with the code's `element_fields` list. -/
def specBaseMajorAnchors : List String :=
  ["salinity", "kh", "cl", "na", "mg", "s", "ca", "k", "br", "sr", "b", "f",
   "salinity_status", "kh_status", "cl_status", "na_status", "mg_status",
   "s_status", "ca_status", "k_status", "br_status", "sr_status", "b_status",
   "f_status"]

/-- A record with lab name, test date and a single minor-element value. -/
def c8rec : Data :=
  dset (dset (dset emptyData "lab_name" (.s "ATI Aquaristik"))
    "test_date" (.d ⟨2026, 2, 7⟩)) "li" (.q 5)

/-- C8 counterexample: a record containing none of the base/major element
values or statuses (only the minor element `li`) passes validation, so
`NoExtractableData` is not raised "if and only if no base/major anchor is
present": the code's designated list also contains minor, nutrient and
pollutant fields. -/
theorem c8_counterexample_minor_anchor :
    dmem c8rec "lab_name" = true ∧ dmem c8rec "test_date" = true ∧
      (∀ f ∈ specBaseMajorAnchors, dmem c8rec f = false) ∧
      validate_parsed_data c8rec = .ok () := by
  refine ⟨by decide, by decide, by decide, by decide⟩

/-- C8 as amended: `validate_parsed_data` raises `MissingRequiredField` iff
`lab_name` or `test_date` is absent, and otherwise raises
`NoExtractableData` iff none of the code's designated anchor fields
(`element_fields`: ca, mg, kh, salinity, li, si, al, no3, po4 and their
status fields) is present; with lab name and test date but no anchor data
it always fails with `NoExtractableData`. -/
theorem c8_validate_iff :
    ∀ dt : Data,
      (validate_parsed_data dt = .error VErr.missingRequiredField ↔
        (dmem dt "lab_name" = false ∨ dmem dt "test_date" = false)) ∧
      (dmem dt "lab_name" = true → dmem dt "test_date" = true →
        (validate_parsed_data dt = .error VErr.noExtractableData ↔
          ∀ f ∈ element_fields, dmem dt f = false)) ∧
      (dmem dt "lab_name" = true → dmem dt "test_date" = true →
        (∀ f ∈ element_fields, dmem dt f = false) →
        validate_parsed_data dt = .error VErr.noExtractableData) := by
  intro dt
  by_cases hl : dmem dt "lab_name" = true
  · by_cases ht : dmem dt "test_date" = true
    · have hmiss : (["lab_name", "test_date"].filter fun f => !dmem dt f)
          = [] := by
        simp [List.filter, hl, ht]
      cases hany : element_fields.any fun f => dmem dt f with
      | true =>
        have hval : validate_parsed_data dt = .ok () := by
          unfold validate_parsed_data
          rw [hmiss]
          simp [hany]
        obtain ⟨f, hf, hdf⟩ := List.any_eq_true.mp hany
        refine ⟨?_, ?_, ?_⟩
        · rw [hval]
          simp [hl, ht]
        · intro _ _
          rw [hval]
          constructor
          · intro hc
            cases hc
          · intro hall
            rw [hall f hf] at hdf
            cases hdf
        · intro _ _ hall
          rw [hall f hf] at hdf
          cases hdf
      | false =>
        have hval : validate_parsed_data dt
            = .error VErr.noExtractableData := by
          unfold validate_parsed_data
          rw [hmiss]
          simp [hany]
        have hall : ∀ f ∈ element_fields, dmem dt f = false := by
          intro f hf
          have := List.any_eq_false.mp hany f hf
          simpa using this
        refine ⟨?_, ?_, ?_⟩
        · rw [hval]
          simp [hl, ht]
        · intro _ _
          rw [hval]
          exact ⟨fun _ => hall, fun _ => rfl⟩
        · intro _ _ _
          exact hval
    · have ht' : dmem dt "test_date" = false := by
        simpa using ht
      have hval : validate_parsed_data dt
          = .error VErr.missingRequiredField := by
        unfold validate_parsed_data
        simp [List.filter, hl, ht']
      refine ⟨?_, ?_, ?_⟩
      · simp [hval, ht']
      · intro _ htt
        rw [htt] at ht'
        cases ht'
      · intro _ htt
        rw [htt] at ht'
        cases ht'
  · have hl' : dmem dt "lab_name" = false := by simpa using hl
    have hval : validate_parsed_data dt
        = .error VErr.missingRequiredField := by
      unfold validate_parsed_data
      simp [List.filter, hl']
    refine ⟨?_, ?_, ?_⟩
    · simp [hval, hl']
    · intro hll
      rw [hll] at hl'
      cases hl'
    · intro hll
      rw [hll] at hl'
      cases hl'

/-- Witness for the amended C8 at a concrete record lacking anchor data. -/
theorem c8_validate_iff_witness :
    validate_parsed_data
        (dset (dset emptyData "lab_name" (.s "ATI Aquaristik"))
          "test_date" (.d ⟨2026, 2, 7⟩))
      = .error VErr.noExtractableData := by
  exact (c8_validate_iff _).2.2 (by decide) (by decide) (by decide)

/-- C2 (code bug): the three supported formats and the rejection examples
behave as documented, but `parse_date` is not error-free: the ISO pattern
constructs the date outside any `try/except`, so an in-shape but impossible
ISO token such as `"2026-13-45"` raises an uncaught `ValueError` instead of
falling through to the next pattern. -/
theorem c2_parse_date_iso_raises :
    parse_date "2026-13-45" = .error () ∧
      parse_date "2026-02-07" = .ok (some ⟨2026, 2, 7⟩) ∧
      parse_date "02/07/2026" = .ok (some ⟨2026, 2, 7⟩) ∧
      parse_date "07.02.2026" = .ok (some ⟨2026, 2, 7⟩) ∧
      parse_date "13.99.2026" = .ok Option.none ∧
      parse_date "" = .ok Option.none ∧
      parse_date " - " = .ok Option.none := by
  refine ⟨by decide, by decide, by decide, by decide, by decide, by decide,
    by decide⟩

end AquaScope
